import Mathlib

/-!
Verification of the Backstage scaffolder workflow runner
(`plugins/scaffolder-backend/src/scaffolder/tasks/NunjucksWorkflowRunner.ts`).

The development shallowly embeds the runner's data model and algorithms:

* `Json` models the `JsonValue` trees the runner manipulates (JSON has no
  `undefined`; where the TypeScript code produces `undefined` the embedding
  uses `Option Json` with `none`).
* The template engine collaborators (nunjucks parsing/rendering, the `dump`
  filter backed by `JSON.stringify`, and `JSON.parse`) are external to the
  repository; they are modelled executably: template strings are split into
  literal and `$\x7b\x7b ... \x7d\x7d` expression segments, expressions are
  dotted-path lookups into the context object, `dump` is a concrete JSON
  serializer and the re-parse is a concrete JSON parser, with the
  serialize/parse round-trip proved rather than assumed.
* `render`, `isSingleTemplateString` and `execute` follow the source line by
  line; `execute` additionally records a trace of observable events
  (render calls with the context's secrets, registry lookups, handler
  invocations, skip/success/failure outcomes) so that trace properties can
  be stated.
-/

/-- JSON value trees, mirroring `JsonValue` from `@backstage/types`.
Numbers are modelled as integers (the values exercised by the runner's
templating semantics). -/
inductive Json where
  | null
  | bool (b : Bool)
  | num (n : Int)
  | str (s : String)
  | arr (elems : List Json)
  | obj (fields : List (String × Json))

namespace Json

/-- Property lookup in an association list of object fields. -/
def lookupField : List (String × Json) → String → Option Json
  | [], _ => none
  | (k', v) :: fs, k => if k' = k then some v else lookupField fs k

/-- Property access `v[k]`: defined for objects, `undefined` otherwise. -/
def getField : Json → String → Option Json
  | .obj fs, k => lookupField fs k
  | _, _ => none

end Json

/-! ## A concrete JSON serializer and parser

The runner's whole-expression rendering pipes an evaluated value through the
nunjucks `dump` filter (which is `JSON.stringify`) and re-parses the engine's
output with `JSON.parse`.  Both builtins are modelled concretely so the
type-preservation property can be proved, not assumed. -/

/-- Escape of one character inside a JSON string literal, as
`JSON.stringify` produces it for the characters that occur here. -/
def escChar (c : Char) : List Char :=
  if c = '"' then ['\\', '"']
  else if c = '\\' then ['\\', '\\']
  else if c = '\n' then ['\\', 'n']
  else if c = '\t' then ['\\', 't']
  else if c = '\r' then ['\\', 'r']
  else [c]

/-- Escape of a character sequence inside a JSON string literal. -/
def escChars : List Char → List Char
  | [] => []
  | c :: cs => escChar c ++ escChars cs

/-- Decimal digits of a natural number, most significant first.  The fuel
argument keeps the recursion structural so that the kernel can evaluate it;
`natChars` supplies sufficient fuel. -/
def natCharsAux : Nat → Nat → List Char
  | 0, _ => []
  | fuel + 1, n =>
    if n < 10 then [Char.ofNat (48 + n)]
    else natCharsAux fuel (n / 10) ++ [Char.ofNat (48 + n % 10)]

/-- Decimal representation of a natural number. -/
def natChars (n : Nat) : List Char := natCharsAux (n + 1) n

/-- Decimal representation of an integer, as `JSON.stringify` renders it. -/
def intChars (i : Int) : List Char :=
  if i < 0 then '-' :: natChars i.natAbs else natChars i.natAbs

mutual

/-- Characters of the JSON serialization of a value (`JSON.stringify`). -/
def stringifyChars : Json → List Char
  | .num i => intChars i
  | .str s => '"' :: (escChars s.data ++ ['"'])
  | .bool false => ['f', 'a', 'l', 's', 'e']
  | .bool true => ['t', 'r', 'u', 'e']
  | .null => ['n', 'u', 'l', 'l']
  | .arr [] => ['[', ']']
  | .arr (x :: xs) => '[' :: (stringifyChars x ++ stringifyRestElems xs ++ [']'])
  | .obj [] => ['\x7b', '\x7d']
  | .obj (f :: fs) => '\x7b' :: (stringifyField f ++ stringifyRestFields fs ++ ['\x7d'])

/-- Serialization of the array elements after the first, each preceded by a
comma. -/
def stringifyRestElems : List Json → List Char
  | [] => []
  | y :: ys => ',' :: (stringifyChars y ++ stringifyRestElems ys)

/-- Serialization of one object field `"k":v`. -/
def stringifyField : String × Json → List Char
  | (k, v) => '"' :: (escChars k.data ++ '"' :: ':' :: stringifyChars v)

/-- Serialization of the object fields after the first, each preceded by a
comma. -/
def stringifyRestFields : List (String × Json) → List Char
  | [] => []
  | g :: gs => ',' :: (stringifyField g ++ stringifyRestFields gs)

end

/-- JSON serialization of a value, modelling `JSON.stringify` (and hence the
nunjucks `dump` filter). -/
def jsonStringify (v : Json) : String := ⟨stringifyChars v⟩

/-- Unescaping of the character following a backslash in a JSON string
literal. -/
def unescape : Char → Option Char
  | '"' => some '"'
  | '\\' => some '\\'
  | 'n' => some '\n'
  | 't' => some '\t'
  | 'r' => some '\r'
  | _ => none

/-- Body of a JSON string literal: consumes characters up to and including
the closing quote, resolving escapes. -/
def parseStrAux : List Char → Option (List Char × List Char)
  | [] => none
  | c :: cs =>
    if c = '"' then some ([], cs)
    else if c = '\\' then
      match cs with
      | [] => none
      | e :: cs2 =>
        match unescape e with
        | some c2 =>
          match parseStrAux cs2 with
          | some (l, r) => some (c2 :: l, r)
          | none => none
        | none => none
    else
      match parseStrAux cs with
      | some (l, r) => some (c :: l, r)
      | none => none

/-- Longest digit prefix, folded into a number left to right. -/
def parseNatAux : List Char → Nat → Nat × List Char
  | [], acc => (acc, [])
  | c :: cs, acc =>
    if '0' ≤ c ∧ c ≤ '9' then parseNatAux cs (acc * 10 + (c.toNat - 48))
    else (acc, c :: cs)

/-- Parse of a natural number (at least one digit required). -/
def parseNat : List Char → Option (Nat × List Char)
  | [] => none
  | c :: cs =>
    if '0' ≤ c ∧ c ≤ '9' then some (parseNatAux (c :: cs) 0) else none

/-- Wrap of a parsed non-negative number as a value. -/
def numResult : Option (Nat × List Char) → Option (Json × List Char)
  | some (n, r) => some (.num (n : Int), r)
  | none => none

/-- Wrap of a parsed number following a minus sign as a negated value. -/
def negResult : Option (Nat × List Char) → Option (Json × List Char)
  | some (n, r) => some (.num (-(n : Int)), r)
  | none => none

/-- Wrap of a parsed string body as a value. -/
def strResult : Option (List Char × List Char) → Option (Json × List Char)
  | some (l, r) => some (.str ⟨l⟩, r)
  | none => none

/-- Parse of the literal words `null`, `true` and `false`. -/
def wordResult : List Char → Option (Json × List Char)
  | 'n' :: 'u' :: 'l' :: 'l' :: r => some (.null, r)
  | 't' :: 'r' :: 'u' :: 'e' :: r => some (.bool true, r)
  | 'f' :: 'a' :: 'l' :: 's' :: 'e' :: r => some (.bool false, r)
  | _ => none

/-- Wrap of parsed array elements as an array value. -/
def arrResult : Option (List Json × List Char) → Option (Json × List Char)
  | some (xs, r) => some (.arr xs, r)
  | none => none

/-- Wrap of parsed object fields as an object value. -/
def objResult : Option (List (String × Json) × List Char) → Option (Json × List Char)
  | some (fs, r) => some (.obj fs, r)
  | none => none

/-- Prefix of one parsed element onto parsed remaining elements. -/
def consResult (v : Json) : Option (List Json × List Char) → Option (List Json × List Char)
  | some (vs, r) => some (v :: vs, r)
  | none => none

/-- Prefix of one parsed field onto parsed remaining fields. -/
def consFieldResult (f : String × Json) :
    Option (List (String × Json) × List Char) → Option (List (String × Json) × List Char)
  | some (fs, r) => some (f :: fs, r)
  | none => none

mutual

/-- Recursive-descent JSON value parser (`JSON.parse` on the serializer's
output language).  Fuel keeps the recursion structural; `jsonParse` supplies
input length as fuel, which the round-trip theorem shows sufficient. -/
def parseVal : Nat → List Char → Option (Json × List Char)
  | 0, _ => none
  | fuel + 1, cs =>
    match cs with
    | [] => none
    | c :: rest =>
      if '0' ≤ c ∧ c ≤ '9' then numResult (parseNat (c :: rest))
      else if c = '-' then negResult (parseNat rest)
      else if c = '"' then strResult (parseStrAux rest)
      else if c = '[' then
        if rest.head? = some ']' then some (.arr [], rest.tail)
        else arrResult (parseElems fuel rest)
      else if c = '\x7b' then
        if rest.head? = some '\x7d' then some (.obj [], rest.tail)
        else objResult (parseFields fuel rest)
      else wordResult (c :: rest)

/-- Elements of a non-empty JSON array, consuming the closing bracket. -/
def parseElems : Nat → List Char → Option (List Json × List Char)
  | 0, _ => none
  | fuel + 1, cs =>
    match parseVal fuel cs with
    | some (v, ',' :: r2) => consResult v (parseElems fuel r2)
    | some (v, ']' :: r2) => some ([v], r2)
    | _ => none

/-- Fields of a non-empty JSON object, consuming the closing brace. -/
def parseFields : Nat → List Char → Option (List (String × Json) × List Char)
  | 0, _ => none
  | fuel + 1, cs =>
    match cs with
    | '"' :: cs2 =>
      match parseStrAux cs2 with
      | some (k, ':' :: r2) =>
        match parseVal fuel r2 with
        | some (v, ',' :: r4) => consFieldResult (⟨k⟩, v) (parseFields fuel r4)
        | some (v, '\x7d' :: r4) => some ([(Prod.mk (⟨k⟩ : String) v)], r4)
        | _ => none
      | _ => none
    | _ => none

end

/-- Parse of a complete JSON document, modelling `JSON.parse`: the whole
input must be consumed, otherwise the parse fails (a thrown `SyntaxError`
in JavaScript). -/
def jsonParse (s : String) : Option Json :=
  match parseVal (s.data.length + 1) s.data with
  | some (v, []) => some v
  | _ => none

/-! ## Template strings

The nunjucks parser is configured with variable delimiters `$\x7b\x7b` and
`\x7d\x7d`; a parsed template is a sequence of literal-text and expression
segments (`nodes.TemplateData` children versus expression children in the
source's `isSingleTemplateString`). -/

/-- Segment of a parsed template string: literal text or one
`$\x7b\x7b ... \x7d\x7d` expression (carrying the raw text between the
delimiters). -/
inductive Seg where
  | lit (s : String)
  | expr (e : String)
deriving DecidableEq

/-- Scan to the closing `\x7d\x7d` delimiter, returning the expression text
and the remainder. `none` models a nunjucks parse error (unclosed
expression). -/
def findClose : List Char → Option (List Char × List Char)
  | [] => none
  | [_] => none
  | c :: c' :: cs =>
    if c = '\x7d' ∧ c' = '\x7d' then some ([], cs)
    else
      match findClose (c' :: cs) with
      | some (e, r) => some (c :: e, r)
      | none => none

/-- Prepend of one literal character to a segment list, merging with an
adjacent literal segment (nunjucks lexes a maximal run of literal text as
one `TemplateData` node). -/
def mergeLit (c : Char) : List Seg → List Seg
  | Seg.lit s :: rest => Seg.lit ⟨c :: s.data⟩ :: rest
  | segs => Seg.lit ⟨[c]⟩ :: segs

/-- Test for the `$\x7b\x7b` opening delimiter, returning the characters
after it. -/
def openMatch : List Char → Option (List Char)
  | '$' :: '\x7b' :: '\x7b' :: rest => some rest
  | _ => none

/-- Split of a template string into segments.  Fuel keeps the recursion
structural; `parseTemplate` supplies input length as fuel, which is always
sufficient because every step consumes at least one character. -/
def parseSegsAux : Nat → List Char → Option (List Seg)
  | 0, _ => none
  | _ + 1, [] => some []
  | fuel + 1, c :: cs =>
    match openMatch (c :: cs) with
    | some rest =>
      match findClose rest with
      | some (e, r) =>
        match parseSegsAux fuel r with
        | some segs => some (Seg.expr ⟨e⟩ :: segs)
        | none => none
      | none => none
    | none =>
      match parseSegsAux fuel cs with
      | some segs => some (mergeLit c segs)
      | none => none

/-- Parse of a template string into literal/expression segments, modelling
`nunjucks.parser.parse` with the runner's delimiter configuration.  `none`
models a thrown parse error. -/
def parseTemplate (s : String) : Option (List Seg) :=
  parseSegsAux (s.data.length + 1) s.data

/-! ## Expression evaluation

The expression engine itself (`SecureTemplater`) is an external collaborator;
expressions are modelled as dotted-path lookups into the context object,
evaluating to `undefined` (`none`) when a path component is missing — the
behaviour the runner relies on. -/

/-- Drop of leading and trailing spaces. -/
def trimChars (cs : List Char) : List Char :=
  ((cs.dropWhile fun c => c == ' ').reverse.dropWhile fun c => c == ' ').reverse

/-- Split at dots, mirroring a dotted nunjucks path expression. -/
def splitDots : List Char → List (List Char)
  | [] => [[]]
  | c :: cs =>
    if c = '.' then [] :: splitDots cs
    else
      match splitDots cs with
      | [] => [[c]]
      | p :: ps => (c :: p) :: ps

/-- Lookup of a dotted path in a context value; `none` is `undefined`. -/
def evalPath : Json → List String → Option Json
  | v, [] => some v
  | v, k :: ks =>
    match v.getField k with
    | some v2 => evalPath v2 ks
    | none => none

/-- Evaluation of one template expression (the text between the delimiters)
against a context value. -/
def evalExpr (e : String) (ctx : Json) : Option Json :=
  evalPath ctx ((splitDots e.data).map fun p => (⟨trimChars p⟩ : String))

mutual

/-- String rendering of a value interpolated into literal text, as nunjucks
outputs it (JavaScript string coercion; `null`/`undefined` print as
nothing). -/
def displayValue : Json → String
  | .null => ""
  | .bool true => "true"
  | .bool false => "false"
  | .num n => ⟨intChars n⟩
  | .str s => s
  | .arr [] => ""
  | .arr (x :: xs) => ⟨(displayValue x).data ++ displayRestElems xs⟩
  | .obj _ => "[object Object]"

/-- Comma-joined display of the array elements after the first (JavaScript
`Array#toString`). -/
def displayRestElems : List Json → List Char
  | [] => []
  | y :: ys => ',' :: ((displayValue y).data ++ displayRestElems ys)

end

/-- Rendered text of one segment: literal text stands for itself, an
expression renders as the display of its value (empty for `undefined`). -/
def segText (ctx : Json) : Seg → String
  | .lit s => s
  | .expr e =>
    match evalExpr e ctx with
    | none => ""
    | some v => displayValue v

/-- Plain string templating of a parsed segment list (the
`renderTemplate(value, context)` call of the fallback path). -/
def renderSegs (segs : List Seg) (ctx : Json) : String :=
  match segs with
  | [] => ""
  | sg :: rest => segText ctx sg ++ renderSegs rest ctx

/-- Output of the template engine on the dump-wrapped rewrite
`$\x7b\x7b ( e ) | dump \x7d\x7d` of a whole-expression string: the JSON
serialization of the expression's value, or empty output when the
expression evaluates to `undefined`. -/
def dumpedOutput (e : String) (ctx : Json) : String :=
  match evalExpr e ctx with
  | none => ""
  | some v => jsonStringify v

namespace NunjucksWorkflowRunner

/-- Classification of a string as a whole-expression template, mirroring
`NunjucksWorkflowRunner.isSingleTemplateString` (source lines 101-129): the
parse has exactly one child and it is not literal `TemplateData`. -/
def isSingleTemplateString (input : String) : Bool :=
  match parseTemplate input with
  | some [Seg.expr _] => true
  | _ => false

/-- Rendering of one string leaf, following the reviver body of
`NunjucksWorkflowRunner.render` (source lines 136-177): a whole-expression
string is rewritten through the `dump` filter and the engine output is
re-parsed (empty output means `undefined`); any other string renders as
plain text (empty result means `undefined`); a template parse error keeps
the value unchanged (both rendering attempts throw, and the outer catch
returns the value). -/
def renderString (value : String) (ctx : Json) : Option Json :=
  match parseTemplate value with
  | none => some (.str value)
  | some segs =>
    match segs with
    | [Seg.expr e] =>
      let templated := dumpedOutput e ctx
      if templated = "" then none
      else
        match jsonParse templated with
        | some v => some v
        | none =>
          let t := renderSegs segs ctx
          if t = "" then none else some (.str t)
    | _ =>
      let t := renderSegs segs ctx
      if t = "" then none else some (.str t)

mutual

/-- Deep template substitution, mirroring `NunjucksWorkflowRunner.render`
(source lines 131-178): a walk over the value tree transforming every
string leaf with `renderString`; non-string leaves pass through unchanged;
a leaf rendered to `undefined` is dropped from its containing array or
object (`JSON.parse` reviver semantics); `none` at the root means the
whole value rendered to `undefined`. -/
def render : Json → Json → Option Json
  | .str s, ctx => renderString s ctx
  | .arr xs, ctx => some (.arr (renderElems xs ctx))
  | .obj fs, ctx => some (.obj (renderFields fs ctx))
  | v, _ => some v

/-- Renders array elements, dropping those that render to `undefined`. -/
def renderElems : List Json → Json → List Json
  | [], _ => []
  | x :: xs, ctx =>
    match render x ctx with
    | some v => v :: renderElems xs ctx
    | none => renderElems xs ctx

/-- Renders object fields, dropping those that render to `undefined`. -/
def renderFields : List (String × Json) → Json → List (String × Json)
  | [], _ => []
  | (k, x) :: fs, ctx =>
    match render x ctx with
    | some v => (k, v) :: renderFields fs ctx
    | none => renderFields fs ctx

end

end NunjucksWorkflowRunner

/-! ## Schemas, truthiness and example output

`isTruthy` and `generateExampleOutput` are imported by the runner from
`./helper`, a repository file not included in the sources; they are modelled
from the specification. -/

/-- JSON-Schema shapes declared by actions (the subset exercised by the
runner: primitive types, objects with per-property schemas, arrays). -/
inductive Schema where
  | sString
  | sNumber
  | sBoolean
  | sNull
  | sObject (props : List (String × Schema))
  | sArray (elem : Schema)

mutual

/-- Structural schema validation, modelling the external `jsonschema`
`validate` call: a value conforms to an object schema when every declared
property that is present conforms (absent properties are permitted, as no
`required` list is modelled). -/
def conforms : Json → Schema → Bool
  | .str _, .sString => true
  | .num _, .sNumber => true
  | .bool _, .sBoolean => true
  | .null, .sNull => true
  | .obj fs, .sObject props => conformsProps (.obj fs) props
  | .arr xs, .sArray e => conformsElems xs e
  | _, _ => false

/-- Validation of the declared properties of an object schema. -/
def conformsProps : Json → List (String × Schema) → Bool
  | _, [] => true
  | v, (k, sch) :: props =>
    (match v.getField k with
     | none => true
     | some w => conforms w sch) && conformsProps v props

/-- Validation of every array element against the element schema. -/
def conformsElems : List Json → Schema → Bool
  | [], _ => true
  | x :: xs, e => conforms x e && conformsElems xs e

end

mutual

/-- Modelled from the spec: `generateExampleOutput` lives in `./helper`,
which is not among the included sources.  Per the spec it synthesizes "a
structurally valid example output" from an output schema (delegated to an
external generator); the concrete example leaves are arbitrary. -/
def generateExampleOutput : Schema → Json
  | .sString => .str "example"
  | .sNumber => .num 42
  | .sBoolean => .bool true
  | .sNull => .null
  | .sObject props => .obj (generateExampleProps props)
  | .sArray e => .arr [generateExampleOutput e]

/-- Modelled from the spec: example values for every declared property of
an object schema. -/
def generateExampleProps : List (String × Schema) → List (String × Json)
  | [] => []
  | (k, sch) :: props => (k, generateExampleOutput sch) :: generateExampleProps props

end

/-- Modelled from the spec: `isTruthy` lives in `./helper`, which is not
among the included sources.  Per the spec the rendered conditional "is
coerced to a boolean using truthiness rules (empty string, `"false"`,
absent/undefined, numeric zero, empty collection all coerce to false;
everything else true)"; `null` is treated as an absent value, and both the
empty array and the empty object count as empty collections. -/
def isTruthy : Option Json → Bool
  | none => false
  | some .null => false
  | some (.bool b) => b
  | some (.num n) => !(n == 0)
  | some (.str s) => !(s == "" || s == "false")
  | some (.arr []) => false
  | some (.arr (_ :: _)) => true
  | some (.obj []) => false
  | some (.obj (_ :: _)) => true

/-! ## The task execution model

The runner's `execute` (source lines 180-317).  External effects that the
claims observe — render calls and the secrets their context carried,
registry lookups, handler invocations, tracker outcomes — are recorded in
an event trace.  Collaborators outside this repository (the filesystem,
loggers, metrics) are not modelled beyond the workspace create/remove
booleans. -/

/-- One workflow step (`TaskStep`): identifier, display name, action
identifier, optional templated input, optional conditional expression
(the `if` field of the source). -/
structure Step where
  id : String
  name : String
  action : String
  input : Option Json
  ifCond : Option Json

/-- Registered action capability handle (`TemplateAction`): schemas, the
dry-run support flag, and the handler.  The handler is abstracted to a
function from its rendered input to either failure or the outputs it
records through the `output` callback (the logger, log stream, workspace
path and temporary-directory factory it also receives are external). -/
structure TemplateAction where
  id : String
  supportsDryRun : Bool
  inputSchema : Option Schema
  outputSchema : Option Schema
  handler : Json → Except String (List (String × Json))

/-- The action registry: lookup by action identifier; `none` models the
`actionRegistry.get` throw for an unregistered action. -/
def ActionRegistry := String → Option TemplateAction

/-- A task specification as `execute` consumes it (`TaskSpecV1beta3` plus
the task-context flags used by the runner). -/
structure TaskContext where
  apiVersion : String
  steps : List Step
  parameters : List (String × Json)
  secrets : Option (List (String × String))
  isDryRun : Bool
  output : Json
  user : Option Json

/-- The template context threaded through the step loop (source lines
53-60 and 209-213).  `steps` maps a step id to that step's captured output
mapping; `secrets` is populated only on the spread copy used to render a
step's input. -/
structure TemplateContext where
  parameters : List (String × Json)
  steps : List (String × Json)
  secrets : Option (List (String × String))
  user : Option Json

/-- JavaScript object property assignment `m[k] = v`: replaces the value of
an existing key, otherwise appends. -/
def setKey : List (String × Json) → String → Json → List (String × Json)
  | [], k, v => [(k, v)]
  | (k', v') :: rest, k, v =>
    if k' = k then (k, v) :: rest else (k', v') :: setKey rest k v

/-- Plain lookup in a string-keyed association list. -/
def lookupKey : List (String × Json) → String → Option Json
  | [], _ => none
  | (k', v) :: rest, k => if k' = k then some v else lookupKey rest k

/-- The `steps` field of the context as the template engine sees it: each
entry wrapped as `\x7b output: ... \x7d` (source line 298). -/
def stepsToJson (steps : List (String × Json)) : Json :=
  .obj (steps.map fun p => (p.1, Json.obj [("output", p.2)]))

/-- A secrets mapping as a context value. -/
def secretsToJson (s : List (String × String)) : Json :=
  .obj (s.map fun p => (p.1, Json.str p.2))

/-- The context object handed to the template engine. -/
def ctxToJson (ctx : TemplateContext) : Json :=
  .obj
    ([("parameters", Json.obj ctx.parameters), ("steps", stepsToJson ctx.steps)]
      ++ (match ctx.secrets with
          | none => []
          | some s => [("secrets", secretsToJson s)])
      ++ (match ctx.user with
          | none => []
          | some u => [("user", u)]))

/-- What a render call was rendering: a step's conditional, a step's
input, or the task's final output expression. -/
inductive RenderKind where
  | ifCond (stepId : String)
  | stepInput (stepId : String)
  | taskOutput
deriving DecidableEq

/-- Observable events of one task execution. -/
inductive Event where
  | rendered (kind : RenderKind) (secrets : Option (List (String × String)))
  | actionLookup (stepId : String) (actionId : String)
  | handlerInvoked (stepId : String) (input : Json)
  | skippedFalsy (stepId : String)
  | skippedDryRun (stepId : String)
  | stepSucceeded (stepId : String)
  | stepFailed (stepId : String)

/-- Failure modes surfaced by `execute`. -/
inductive RunError where
  | invalidTaskSpec
  | actionNotFound (actionId : String)
  | invalidInput (actionId : String) (msg : String)
  | handlerFailed (msg : String)
deriving DecidableEq

/-- Result of running one step: the context afterwards, the events emitted,
and the error that aborted the task, if any. -/
structure StepResult where
  ctx : TemplateContext
  events : List Event
  error : Option RunError

namespace NunjucksWorkflowRunner

/-- JavaScript truthiness of a value, deciding the short-circuit of the
`&&` in `step.input && this.render(...)` (source line 250): `null`,
`false`, `0` and the empty string are falsy; every other value, including
every array and object, is truthy. -/
def jsTruthy : Json → Bool
  | .null => false
  | .bool b => b
  | .num i => i != 0
  | .str s => s != ""
  | .arr _ => true
  | .obj _ => true

/-- The rendered input of a step (source lines 248-256):
`(step.input && this.render(step.input, \x7b ...context, secrets: task.secrets ?? \x7b\x7d \x7d, renderTemplate)) ?? \x7b\x7d` —
an absent input defaults to the empty object; a present truthy input is
rendered against the spread copy of the loop context with the secrets
attached, a rendering of `undefined` defaulting to the empty object; a
present falsy input short-circuits the `&&` unrendered, after which the
`??` maps `null` to the empty object and hands any other falsy value to
the handler as it stands. -/
def stepInputValue (secrets : Option (List (String × String))) (step : Step)
    (ctx : TemplateContext) : Json :=
  match step.input with
  | none => .obj []
  | some inp =>
    if jsTruthy inp then
      (render inp (ctxToJson { ctx with secrets := some (secrets.getD []) })).getD (.obj [])
    else
      match inp with
      | .null => .obj []
      | _ => inp

/-- The body of one loop iteration after the conditional check (source
lines 230-300): action resolution, the dry-run short-circuit, input
rendering and validation, and the handler invocation with output capture. -/
def runStepBody (registry : ActionRegistry) (isDryRun : Bool)
    (secrets : Option (List (String × String))) (step : Step)
    (ctx : TemplateContext) (evs : List Event) : StepResult :=
  match registry step.action with
  | none =>
    ⟨ctx, evs ++ [.actionLookup step.id step.action, .stepFailed step.id],
      some (.actionNotFound step.action)⟩
  | some action =>
    let evs := evs ++ [Event.actionLookup step.id step.action]
    if isDryRun && !action.supportsDryRun then
      let out : Json :=
        match action.outputSchema with
        | some sch => generateExampleOutput sch
        | none => .obj []
      ⟨{ ctx with steps := setKey ctx.steps step.id out },
        evs ++ [.skippedDryRun step.id], none⟩
    else
      let input := stepInputValue secrets step ctx
      let evs :=
        match step.input with
        | none => evs
        | some i =>
          if jsTruthy i then
            evs ++ [Event.rendered (.stepInput step.id) (some (secrets.getD []))]
          else evs
      let validationOk : Bool :=
        match action.inputSchema with
        | none => true
        | some sch => conforms input sch
      if validationOk then
        match action.handler input with
        | .error msg =>
          ⟨ctx, evs ++ [.handlerInvoked step.id input, .stepFailed step.id],
            some (.handlerFailed msg)⟩
        | .ok out =>
          ⟨{ ctx with steps := setKey ctx.steps step.id (.obj out) },
            evs ++ [.handlerInvoked step.id input, .stepSucceeded step.id], none⟩
      else
        ⟨ctx, evs ++ [.stepFailed step.id], some (.invalidInput action.id "validation failed")⟩

/-- One loop iteration (source lines 215-306): the conditional check
renders `step.if` against the loop context (no secrets) and skips the step
when the result is falsy, creating no output entry; otherwise the step body
runs. -/
def runStep (registry : ActionRegistry) (isDryRun : Bool)
    (secrets : Option (List (String × String))) (step : Step)
    (ctx : TemplateContext) : StepResult :=
  match step.ifCond with
  | some c =>
    let ev := Event.rendered (.ifCond step.id) ctx.secrets
    let ifResult := render c (ctxToJson ctx)
    if isTruthy ifResult then
      runStepBody registry isDryRun secrets step ctx [ev]
    else
      ⟨ctx, [ev, .skippedFalsy step.id], none⟩
  | none => runStepBody registry isDryRun secrets step ctx []

/-- The step loop: steps run strictly in order, the context accumulates,
and the first step error aborts the remainder. -/
def runSteps (registry : ActionRegistry) (isDryRun : Bool)
    (secrets : Option (List (String × String))) :
    List Step → TemplateContext → List Event →
    TemplateContext × List Event × Option RunError
  | [], ctx, evs => (ctx, evs, none)
  | step :: rest, ctx, evs =>
    let r := runStep registry isDryRun secrets step ctx
    match r.error with
    | some e => (r.ctx, evs ++ r.events, some e)
    | none => runSteps registry isDryRun secrets rest r.ctx (evs ++ r.events)

/-- The initial template context (source lines 209-213). -/
def initialContext (task : TaskContext) : TemplateContext :=
  ⟨task.parameters, [], none, task.user⟩

/-- Outcome of `execute`: the returned output (or the propagated error),
the event trace, the final context, and the workspace lifecycle booleans. -/
structure ExecOutcome where
  result : Except RunError (Option Json)
  events : List Event
  finalContext : TemplateContext
  workspaceCreated : Bool
  workspaceRemoved : Bool

/-- The task version accepted by `isValidTaskSpec` (source lines 62-64). -/
def supportedApiVersion : String := "scaffolder.backstage.io/v1beta3"

/-- The workflow entry point, mirroring `NunjucksWorkflowRunner.execute`
(source lines 180-317): an unsupported spec version fails before the
workspace is created; otherwise the workspace is created, the steps run in
order, on success the task output expression is rendered against the final
context (still without secrets), and the workspace is removed on every exit
from the `try` (the `finally` block). -/
def execute (registry : ActionRegistry) (task : TaskContext) : ExecOutcome :=
  if task.apiVersion = supportedApiVersion then
    let r := runSteps registry task.isDryRun task.secrets task.steps (initialContext task) []
    match r with
    | (ctx, evs, some e) => ⟨.error e, evs, ctx, true, true⟩
    | (ctx, evs, none) =>
      let output := render task.output (ctxToJson ctx)
      ⟨.ok output, evs ++ [Event.rendered .taskOutput ctx.secrets], ctx, true, true⟩
  else
    ⟨.error .invalidTaskSpec, [], ⟨[], [], none, none⟩, false, false⟩

end NunjucksWorkflowRunner

def ctxEx : Json :=
  .obj [("parameters", .obj [("count", .num 3)]), ("steps", .obj [])]

def actA : TemplateAction :=
  ⟨"act-a", false, none, none, fun _ => .ok [("x", .num 1)]⟩

def actB : TemplateAction :=
  ⟨"act-b", false, none, none, fun _ => .error "boom"⟩

def actDry : TemplateAction :=
  ⟨"act-dry", false, none, some (.sObject [("url", .sString)]), fun _ => .ok []⟩

def regEx : ActionRegistry := fun id =>
  if id = "act-a" then some actA
  else if id = "act-b" then some actB
  else if id = "act-dry" then some actDry
  else none

def stepA : Step := ⟨"a", "A", "act-a", none, none⟩

def stepB : Step := ⟨"b", "B", "act-b", none, none⟩

def stepC : Step := ⟨"c", "C", "act-a", none, none⟩

def stepSkip : Step := ⟨"s1", "S1", "missing-action", none, some (.bool false)⟩

def stepIfTrue : Step := ⟨"s2", "S2", "act-a", none, some (.bool true)⟩

def stepDry : Step := ⟨"d1", "D1", "act-dry", none, none⟩

def stepInputExpr : Step :=
  ⟨"i1", "I1", "act-a", some (.str "$\x7b\x7b missing \x7d\x7d"), none⟩

def stepEmptyInput : Step := ⟨"e1", "E1", "act-a", some (.str ""), none⟩

def taskEx : TaskContext :=
  ⟨"scaffolder.backstage.io/v1beta3", [stepA, stepB, stepC],
    [("count", .num 3)], none, false, .str "done", none⟩

def taskSkip : TaskContext :=
  ⟨"scaffolder.backstage.io/v1beta3", [stepSkip, stepC],
    [("count", .num 3)], none, false, .str "done", none⟩

def ctxW : TemplateContext := ⟨[("count", .num 3)], [], none, none⟩

/-- Heads that may legally follow a serialized value: nothing, or a
separator/closer. -/
def goodFollow : List Char → Prop
  | [] => True
  | c :: _ => c = ',' ∨ c = ']' ∨ c = '\x7d'

namespace NunjucksWorkflowRunner

/-- Observable engine output for one string leaf: for a whole-expression
string, the output of the dump-wrapped rewrite; otherwise the plain
templating output.  (On a template parse error both rendering attempts
throw, so no output is produced; the leaf's own text stands in.) -/
def leafRendering (s : String) (ctx : Json) : String :=
  match parseTemplate s with
  | none => s
  | some [Seg.expr e] => dumpedOutput e ctx
  | some segs => renderSegs segs ctx

end NunjucksWorkflowRunner

/-! ## Expression-free trees (for the idempotence law) -/

/-- A segment list consisting of literal text only. -/
def litOnly : List Seg → Bool
  | [] => true
  | Seg.lit _ :: rest => litOnly rest
  | Seg.expr _ :: _ => false

/-- The literal text carried by a segment list. -/
def segsLitText : List Seg → List Char
  | [] => []
  | Seg.lit s :: rest => s.data ++ segsLitText rest
  | Seg.expr _ :: rest => segsLitText rest

/-- A string containing no template expressions: it parses, and every
segment is literal text. -/
def exprFreeStr (s : String) : Bool :=
  match parseTemplate s with
  | some segs => litOnly segs
  | none => false

mutual

/-- A value tree containing no template expressions in any string leaf. -/
def exprFree : Json → Bool
  | .str s => exprFreeStr s
  | .arr xs => exprFreeElems xs
  | .obj fs => exprFreeFields fs
  | _ => true

/-- Expression-freedom of every array element. -/
def exprFreeElems : List Json → Bool
  | [] => true
  | x :: xs => exprFree x && exprFreeElems xs

/-- Expression-freedom of every object field value. -/
def exprFreeFields : List (String × Json) → Bool
  | [] => true
  | f :: fs => exprFree f.2 && exprFreeFields fs

end

mutual

/-- A value tree with no empty-string leaf. -/
def noEmptyStr : Json → Bool
  | .str s => !(s == "")
  | .arr xs => noEmptyStrElems xs
  | .obj fs => noEmptyStrFields fs
  | _ => true

/-- Absence of empty-string leaves in every array element. -/
def noEmptyStrElems : List Json → Bool
  | [] => true
  | x :: xs => noEmptyStr x && noEmptyStrElems xs

/-- Absence of empty-string leaves in every object field value. -/
def noEmptyStrFields : List (String × Json) → Bool
  | [] => true
  | f :: fs => noEmptyStr f.2 && noEmptyStrFields fs

end

/-! ## Step-loop lemmas -/

/-- The step id an event belongs to, when it belongs to one. -/
def eventStepId : Event → Option String
  | .rendered (.ifCond sid) _ => some sid
  | .rendered (.stepInput sid) _ => some sid
  | .rendered .taskOutput _ => none
  | .actionLookup sid _ => some sid
  | .handlerInvoked sid _ => some sid
  | .skippedFalsy sid => some sid
  | .skippedDryRun sid => some sid
  | .stepSucceeded sid => some sid
  | .stepFailed sid => some sid

/-- The events one step's execution can emit, with the exact payloads the
runner attaches to them. -/
def eventOfStep (sec : Option (List (String × String))) (step : Step)
    (ctx : TemplateContext) (e : Event) : Prop :=
  e = .rendered (.ifCond step.id) ctx.secrets ∨
  e = .skippedFalsy step.id ∨
  e = .actionLookup step.id step.action ∨
  e = .stepFailed step.id ∨
  e = .skippedDryRun step.id ∨
  e = .rendered (.stepInput step.id) (some (sec.getD [])) ∨
  e = .handlerInvoked step.id (NunjucksWorkflowRunner.stepInputValue sec step ctx) ∨
  e = .stepSucceeded step.id

namespace NunjucksWorkflowRunner

/-- The context entry a dry-run-skipped step receives: the schema example
output, or an empty mapping without an output schema (source lines
235-244). -/
def dryRunOutput (a : TemplateAction) : Json :=
  match a.outputSchema with
  | some sch => generateExampleOutput sch
  | none => .obj []

end NunjucksWorkflowRunner

/-! ## Conformance of generated example output -/

/-- Membership test for a key in a key list. -/
def memStr (k : String) : List String → Bool
  | [] => false
  | x :: xs => (x == k) || memStr k xs

/-- Pairwise-distinct keys. -/
def keysDistinct : List String → Bool
  | [] => true
  | k :: ks => !memStr k ks && keysDistinct ks

mutual

/-- Well-formedness of a schema as a JavaScript object: the property names
of every object level are distinct (a JavaScript object cannot repeat a
key). -/
def schemaWF : Schema → Bool
  | .sObject props => keysDistinct (props.map Prod.fst) && schemaWFProps props
  | .sArray e => schemaWF e
  | _ => true

/-- Well-formedness of every property schema. -/
def schemaWFProps : List (String × Schema) → Bool
  | [] => true
  | p :: ps => schemaWF p.2 && schemaWFProps ps

end

/-! ## Theorems -/

example : jsonStringify (.num 3) = "3" := rfl

example : jsonParse "3" = some (.num 3) := rfl

example : jsonStringify (.obj [("a", .str "x\"y")]) = "\x7b\"a\":\"x\\\"y\"\x7d" := rfl

example :
    jsonParse (jsonStringify (.obj [("a", .arr [.num 1, .null, .num (-2)])])) =
      some (.obj [("a", .arr [.num 1, .null, .num (-2)])]) := rfl

example :
    parseTemplate "$\x7b\x7b parameters.count \x7d\x7d" = some [Seg.expr " parameters.count "] := rfl

example :
    parseTemplate "prefix-$\x7b\x7b parameters.count \x7d\x7d" =
      some [Seg.lit "prefix-", Seg.expr " parameters.count "] := rfl

example : parseTemplate "" = some [] := rfl

example : evalExpr " parameters.count " ctxEx = some (.num 3) := rfl

example :
    NunjucksWorkflowRunner.render (.str "$\x7b\x7b parameters.count \x7d\x7d") ctxEx =
      some (.num 3) := rfl

example :
    NunjucksWorkflowRunner.render (.str "prefix-$\x7b\x7b parameters.count \x7d\x7d") ctxEx =
      some (.str "prefix-3") := rfl

example : NunjucksWorkflowRunner.render (.str "") ctxEx = none := rfl

example : NunjucksWorkflowRunner.render (.str "plain") ctxEx = some (.str "plain") := rfl

example : NunjucksWorkflowRunner.isSingleTemplateString "$\x7b\x7b parameters.count \x7d\x7d" = true := rfl

example : NunjucksWorkflowRunner.isSingleTemplateString "prefix-$\x7b\x7b x \x7d\x7d" = false := rfl

example :
    (NunjucksWorkflowRunner.execute regEx taskEx).result = .error (.handlerFailed "boom") := rfl

example :
    (NunjucksWorkflowRunner.execute regEx taskEx).events =
      [.actionLookup "a" "act-a", .handlerInvoked "a" (.obj []), .stepSucceeded "a",
        .actionLookup "b" "act-b", .handlerInvoked "b" (.obj []), .stepFailed "b"] := rfl

example : (NunjucksWorkflowRunner.execute regEx taskEx).finalContext.steps =
    [("a", .obj [("x", .num 1)])] := rfl

example : (NunjucksWorkflowRunner.execute regEx taskEx).workspaceRemoved = true := rfl

/-! ## Round-trip of the JSON serializer and parser -/

/-- Digit characters evaluate back to their digit value. -/
theorem digit_toNat {d : Nat} (h : d < 10) : (Char.ofNat (48 + d)).toNat - 48 = d := by
  interval_cases d <;> decide

/-- Digit characters satisfy the parser's digit test. -/
theorem digit_isDigit {d : Nat} (h : d < 10) :
    '0' ≤ Char.ofNat (48 + d) ∧ Char.ofNat (48 + d) ≤ '9' := by
  interval_cases d <;> exact ⟨by decide, by decide⟩

theorem goodFollow_nil : goodFollow [] := trivial

theorem goodFollow_comma (cs : List Char) : goodFollow (',' :: cs) := Or.inl rfl

theorem goodFollow_rbracket (cs : List Char) : goodFollow (']' :: cs) := Or.inr (Or.inl rfl)

theorem goodFollow_rbrace (cs : List Char) : goodFollow ('\x7d' :: cs) := Or.inr (Or.inr rfl)

/-- A follower head is not a digit. -/
theorem goodFollow_not_digit {c : Char} {cs : List Char} (h : goodFollow (c :: cs)) :
    ¬('0' ≤ c ∧ c ≤ '9') := by
  rcases h with h | h | h <;> subst h <;> decide

/-- Fuel does not change the digits computed, when sufficient. -/
theorem natCharsAux_fuel_irrel :
    ∀ f1 f2 n, n < f1 → n < f2 → natCharsAux f1 n = natCharsAux f2 n := by
  intro f1
  induction f1 with
  | zero => intro f2 n h; omega
  | succ f1 ih =>
    intro f2 n h1 h2
    match f2, h2 with
    | f2 + 1, h2 =>
      show natCharsAux (f1 + 1) n = natCharsAux (f2 + 1) n
      rw [natCharsAux, natCharsAux]
      by_cases h10 : n < 10
      · simp [h10]
      · simp only [if_neg h10]
        rw [ih f2 (n / 10) (by omega) (by omega)]

/-- Unfolding equation of `natChars` in its mathematical form. -/
theorem natChars_eq (n : Nat) :
    natChars n =
      if n < 10 then [Char.ofNat (48 + n)]
      else natChars (n / 10) ++ [Char.ofNat (48 + n % 10)] := by
  show natCharsAux (n + 1) n = _
  rw [natCharsAux]
  by_cases h10 : n < 10
  · simp [h10]
  · simp only [if_neg h10]
    rw [natCharsAux_fuel_irrel n (n / 10 + 1) (n / 10) (by omega) (by omega)]
    rfl

/-- The decimal representation is never empty. -/
theorem natChars_ne_nil (n : Nat) : natChars n ≠ [] := by
  rw [natChars_eq]
  by_cases h10 : n < 10
  · simp [h10]
  · simp only [if_neg h10]
    exact List.append_ne_nil_of_right_ne_nil _ (by simp)

/-- The decimal representation starts with a digit. -/
theorem natChars_head :
    ∀ n, ∃ d t, d < 10 ∧ natChars n = Char.ofNat (48 + d) :: t := by
  intro n
  induction n using Nat.strong_induction_on with
  | _ n ih =>
    rw [natChars_eq]
    by_cases h10 : n < 10
    · exact ⟨n, [], h10, by simp [h10]⟩
    · obtain ⟨d, t, hd, ht⟩ := ih (n / 10) (by omega)
      refine ⟨d, t ++ [Char.ofNat (48 + n % 10)], hd, ?_⟩
      simp [h10, ht]

/-- Parsing past the serialized digits of `n` accumulates `n`. -/
theorem parseNatAux_natChars :
    ∀ n rest acc,
      parseNatAux (natChars n ++ rest) acc =
        parseNatAux rest (acc * 10 ^ (natChars n).length + n) := by
  intro n
  induction n using Nat.strong_induction_on with
  | _ n ih =>
    intro rest acc
    rw [natChars_eq]
    by_cases h10 : n < 10
    · simp only [if_pos h10, List.cons_append, List.nil_append, List.length_cons,
        List.length_nil]
      rw [parseNatAux]
      simp [digit_isDigit h10, digit_toNat h10]
    · simp only [if_neg h10, List.append_assoc, List.cons_append, List.nil_append,
        List.length_append, List.length_cons, List.length_nil]
      rw [ih (n / 10) (by omega)]
      rw [parseNatAux]
      have hlt : n % 10 < 10 := Nat.mod_lt _ (by omega)
      simp only [digit_isDigit hlt, and_self, if_pos, digit_toNat hlt]
      congr 1
      have : acc * 10 ^ ((natChars (n / 10)).length + 1) =
          acc * 10 ^ (natChars (n / 10)).length * 10 := by ring
      rw [this]
      omega

/-- Parsing stops at a non-digit head. -/
theorem parseNatAux_stop {rest : List Char} (h : goodFollow rest) (acc : Nat) :
    parseNatAux rest acc = (acc, rest) := by
  match rest with
  | [] => rfl
  | c :: cs =>
    rw [parseNatAux]
    simp [goodFollow_not_digit h]

/-- Round-trip of natural-number parsing. -/
theorem parseNat_natChars (n : Nat) {rest : List Char} (h : goodFollow rest) :
    parseNat (natChars n ++ rest) = some (n, rest) := by
  obtain ⟨d, t, hd, ht⟩ := natChars_head n
  rw [ht]
  simp only [List.cons_append]
  rw [parseNat]
  simp only [digit_isDigit hd, and_self, if_pos]
  rw [← List.cons_append, ← ht, parseNatAux_natChars, parseNatAux_stop h]
  simp

/-- Serialization is never empty. -/
theorem stringify_ne_nil : ∀ v : Json, stringifyChars v ≠ [] := by
  intro v
  cases v with
  | null => simp [stringifyChars]
  | bool b => cases b <;> simp [stringifyChars]
  | num i =>
    rw [stringifyChars, intChars]
    by_cases h : i < 0
    · simp [h]
    · simp [h, natChars_ne_nil]
  | str s => simp [stringifyChars]
  | arr xs => cases xs <;> simp [stringifyChars]
  | obj fs => cases fs <;> simp [stringifyChars]

/-- Serialization starts with a character that is not a closer. -/
theorem stringify_head :
    ∀ v : Json, ∃ c t, stringifyChars v = c :: t ∧ ¬c = ']' ∧ ¬c = '\x7d' := by
  intro v
  cases v with
  | null => exact ⟨'n', _, rfl, by decide, by decide⟩
  | bool b =>
    cases b
    · exact ⟨'f', _, rfl, by decide, by decide⟩
    · exact ⟨'t', _, rfl, by decide, by decide⟩
  | num i =>
    rw [stringifyChars, intChars]
    by_cases h : i < 0
    · exact ⟨'-', _, by rw [if_pos h], by decide, by decide⟩
    · rw [if_neg h]
      obtain ⟨d, t, hd, ht⟩ := natChars_head i.natAbs
      exact ⟨_, t, ht, by interval_cases d <;> decide, by interval_cases d <;> decide⟩
  | str s => exact ⟨'"', _, rfl, by decide, by decide⟩
  | arr xs =>
    cases xs
    · exact ⟨'[', _, rfl, by decide, by decide⟩
    · exact ⟨'[', _, rfl, by decide, by decide⟩
  | obj fs =>
    cases fs
    · exact ⟨'\x7b', _, rfl, by decide, by decide⟩
    · exact ⟨'\x7b', _, rfl, by decide, by decide⟩

/-- Step of the parser at a digit head. -/
theorem parseVal_digit_head {c : Char} (h : '0' ≤ c ∧ c ≤ '9') (m : Nat) (cs : List Char) :
    parseVal (m + 1) (c :: cs) = numResult (parseNat (c :: cs)) := by
  rw [parseVal]
  rw [if_pos h]

/-- Step of the parser at an opening bracket whose body is non-empty. -/
theorem parseVal_lbracket {cs : List Char} (h : ¬cs.head? = some ']') (m : Nat) :
    parseVal (m + 1) ('[' :: cs) = arrResult (parseElems m cs) := by
  rw [parseVal]
  rw [if_neg (by decide), if_neg (by decide), if_neg (by decide), if_pos rfl, if_neg h]

/-- Step of the parser at an opening brace whose body is non-empty. -/
theorem parseVal_lbrace {cs : List Char} (h : ¬cs.head? = some '\x7d') (m : Nat) :
    parseVal (m + 1) ('\x7b' :: cs) = objResult (parseFields m cs) := by
  rw [parseVal]
  rw [if_neg (by decide), if_neg (by decide), if_neg (by decide), if_neg (by decide),
    if_pos rfl, if_neg h]

/-- Round-trip of one escaped string body. -/
theorem parseStrAux_escChars :
    ∀ (l rest : List Char), parseStrAux (escChars l ++ '"' :: rest) = some (l, rest) := by
  intro l
  induction l with
  | nil =>
    intro rest
    rw [escChars, List.nil_append, parseStrAux.eq_def]
    simp
  | cons c cs ih =>
    intro rest
    rw [escChars, List.append_assoc, escChar]
    by_cases h1 : c = '"'
    · subst h1
      simp only [if_pos rfl, List.cons_append, List.nil_append]
      rw [parseStrAux.eq_def]
      simp [unescape, ih]
    · rw [if_neg h1]
      by_cases h2 : c = '\\'
      · subst h2
        simp only [if_pos rfl, List.cons_append, List.nil_append]
        rw [parseStrAux.eq_def]
        simp [unescape, ih]
      · rw [if_neg h2]
        by_cases h3 : c = '\n'
        · subst h3
          simp only [if_pos rfl, List.cons_append, List.nil_append]
          rw [parseStrAux.eq_def]
          simp [unescape, ih]
        · rw [if_neg h3]
          by_cases h4 : c = '\t'
          · subst h4
            simp only [if_pos rfl, List.cons_append, List.nil_append]
            rw [parseStrAux.eq_def]
            simp [unescape, ih]
          · rw [if_neg h4]
            by_cases h5 : c = '\r'
            · subst h5
              simp only [if_pos rfl, List.cons_append, List.nil_append]
              rw [parseStrAux.eq_def]
              simp [unescape, ih]
            · rw [if_neg h5]
              simp only [List.cons_append, List.nil_append]
              rw [parseStrAux.eq_def]
              simp [h1, h2, ih]

/-- The tail following a first array element is a legal follower. -/
theorem goodFollow_restElems (xs : List Json) (rest : List Char) :
    goodFollow (stringifyRestElems xs ++ ']' :: rest) := by
  cases xs with
  | nil => exact goodFollow_rbracket rest
  | cons y ys =>
    rw [stringifyRestElems, List.cons_append]
    exact goodFollow_comma _

/-- The tail following a first object field's value is a legal follower. -/
theorem goodFollow_restFields (fs : List (String × Json)) (rest : List Char) :
    goodFollow (stringifyRestFields fs ++ '\x7d' :: rest) := by
  cases fs with
  | nil => exact goodFollow_rbrace rest
  | cons g gs =>
    rw [stringifyRestFields, List.cons_append]
    exact goodFollow_comma _

/-- Round-trip of the parser over the serializer, for sufficient fuel:
parsing the serialization of a value (followed by a legal continuation)
returns exactly that value. -/
theorem parse_stringify : ∀ fuel : Nat,
    (∀ (v : Json) (rest : List Char),
      (stringifyChars v).length ≤ fuel → goodFollow rest →
      parseVal fuel (stringifyChars v ++ rest) = some (v, rest)) ∧
    (∀ (x : Json) (xs : List Json) (rest : List Char),
      (stringifyChars x).length + (stringifyRestElems xs).length < fuel →
      parseElems fuel (stringifyChars x ++ (stringifyRestElems xs ++ ']' :: rest)) =
        some (x :: xs, rest)) ∧
    (∀ (f : String × Json) (fs : List (String × Json)) (rest : List Char),
      (stringifyField f).length + (stringifyRestFields fs).length < fuel →
      parseFields fuel (stringifyField f ++ (stringifyRestFields fs ++ '\x7d' :: rest)) =
        some (f :: fs, rest)) := by
  intro fuel
  induction fuel using Nat.strong_induction_on with
  | _ fuel ih =>
    refine ⟨?_, ?_, ?_⟩
    · intro v rest hlen hgf
      cases fuel with
      | zero =>
        exfalso
        have h1 : 0 < (stringifyChars v).length := List.length_pos.mpr (stringify_ne_nil v)
        omega
      | succ m =>
        cases v with
        | null => rfl
        | bool b => cases b <;> rfl
        | num i =>
          by_cases hneg : i < 0
          · have e1 : stringifyChars (.num i) = '-' :: natChars i.natAbs := by
              rw [stringifyChars, intChars, if_pos hneg]
            rw [e1, List.cons_append]
            show negResult (parseNat (natChars i.natAbs ++ rest)) = _
            rw [parseNat_natChars _ hgf]
            have e2 : -((i.natAbs : Int)) = i := by omega
            simp only [negResult]
            rw [e2]
          · have e1 : stringifyChars (.num i) = natChars i.natAbs := by
              rw [stringifyChars, intChars, if_neg hneg]
            obtain ⟨d, t, hd, ht⟩ := natChars_head i.natAbs
            rw [e1]
            have hcons : natChars i.natAbs ++ rest = Char.ofNat (48 + d) :: (t ++ rest) := by
              rw [ht, List.cons_append]
            rw [hcons, parseVal_digit_head (digit_isDigit hd), ← hcons,
              parseNat_natChars _ hgf]
            have e2 : ((i.natAbs : Int)) = i := by omega
            simp only [numResult]
            rw [e2]
        | str s =>
          have e1 : stringifyChars (.str s) ++ rest = '"' :: (escChars s.data ++ '"' :: rest) := by
            rw [stringifyChars]
            simp
          rw [e1]
          show strResult (parseStrAux (escChars s.data ++ '"' :: rest)) = _
          rw [parseStrAux_escChars]
          rfl
        | arr xs =>
          cases xs with
          | nil => rfl
          | cons x xs =>
            have e1 : stringifyChars (.arr (x :: xs)) ++ rest =
                '[' :: (stringifyChars x ++ (stringifyRestElems xs ++ ']' :: rest)) := by
              rw [stringifyChars]
              simp
            rw [e1]
            obtain ⟨c, t, hct, hc1, _⟩ := stringify_head x
            have hhead :
                ¬(stringifyChars x ++ (stringifyRestElems xs ++ ']' :: rest)).head? = some ']' := by
              rw [hct]
              simp [hc1]
            rw [parseVal_lbracket hhead]
            have hx : 0 < (stringifyChars x).length := List.length_pos.mpr (stringify_ne_nil x)
            have hlen1 : (stringifyChars (Json.arr (x :: xs))).length =
                (stringifyChars x).length + (stringifyRestElems xs).length + 2 := by
              rw [stringifyChars]
              simp only [List.length_cons, List.length_append, List.length_nil]
              try omega
            rw [(ih m (Nat.lt_succ_self m)).2.1 x xs rest (by omega)]
            rfl
        | obj fs =>
          cases fs with
          | nil => rfl
          | cons f fs =>
            have e1 : stringifyChars (.obj (f :: fs)) ++ rest =
                '\x7b' :: (stringifyField f ++ (stringifyRestFields fs ++ '\x7d' :: rest)) := by
              rw [stringifyChars]
              simp
            rw [e1]
            have hhead :
                ¬(stringifyField f ++ (stringifyRestFields fs ++ '\x7d' :: rest)).head? =
                  some '\x7d' := by
              obtain ⟨k, v⟩ := f
              rw [stringifyField, List.cons_append]
              simp
            rw [parseVal_lbrace hhead]
            have hlen1 : (stringifyChars (Json.obj (f :: fs))).length =
                (stringifyField f).length + (stringifyRestFields fs).length + 2 := by
              rw [stringifyChars]
              simp only [List.length_cons, List.length_append, List.length_nil]
              try omega
            rw [(ih m (Nat.lt_succ_self m)).2.2 f fs rest (by omega)]
            rfl
    · intro x xs rest hlen
      cases fuel with
      | zero => omega
      | succ m =>
        have hV : parseVal m (stringifyChars x ++ (stringifyRestElems xs ++ ']' :: rest)) =
            some (x, stringifyRestElems xs ++ ']' :: rest) := by
          apply (ih m (Nat.lt_succ_self m)).1
          · omega
          · exact goodFollow_restElems xs rest
        rw [parseElems]
        rw [hV]
        cases xs with
        | nil => rfl
        | cons y ys =>
          rw [stringifyRestElems, List.cons_append]
          show consResult x
              (parseElems m (stringifyChars y ++ stringifyRestElems ys ++ ']' :: rest)) = _
          rw [List.append_assoc]
          have hy : 0 < (stringifyChars y).length := List.length_pos.mpr (stringify_ne_nil y)
          have hx : 0 < (stringifyChars x).length := List.length_pos.mpr (stringify_ne_nil x)
          have hlen1 : (stringifyRestElems (y :: ys)).length =
              (stringifyChars y).length + (stringifyRestElems ys).length + 1 := by
            rw [stringifyRestElems]
            simp only [List.length_cons, List.length_append, List.length_nil]
            try omega
          rw [(ih m (Nat.lt_succ_self m)).2.1 y ys rest (by omega)]
          rfl
    · intro f fs rest hlen
      cases fuel with
      | zero => omega
      | succ m =>
        obtain ⟨k, v⟩ := f
        have e1 : stringifyField (k, v) ++ (stringifyRestFields fs ++ '\x7d' :: rest) =
            '"' :: (escChars k.data ++ '"' :: ':' ::
              (stringifyChars v ++ (stringifyRestFields fs ++ '\x7d' :: rest))) := by
          rw [stringifyField]
          simp
        rw [e1, parseFields]
        rw [parseStrAux_escChars]
        simp only []
        have hV : parseVal m (stringifyChars v ++ (stringifyRestFields fs ++ '\x7d' :: rest)) =
            some (v, stringifyRestFields fs ++ '\x7d' :: rest) := by
          apply (ih m (Nat.lt_succ_self m)).1
          · have hlen1 : (stringifyField (k, v)).length =
                (escChars k.data).length + (stringifyChars v).length + 3 := by
              rw [stringifyField]
              simp only [List.length_cons, List.length_append, List.length_nil]
              try omega
            omega
          · exact goodFollow_restFields fs rest
        rw [hV]
        cases fs with
        | nil => rfl
        | cons g gs =>
          rw [stringifyRestFields, List.cons_append]
          show consFieldResult (⟨k.data⟩, v)
              (parseFields m (stringifyField g ++ stringifyRestFields gs ++ '\x7d' :: rest)) = _
          rw [List.append_assoc]
          have hg : 0 < (stringifyField g).length := by
            obtain ⟨k2, v2⟩ := g
            rw [stringifyField]
            simp
          have hlen1 : (stringifyRestFields (g :: gs)).length =
              (stringifyField g).length + (stringifyRestFields gs).length + 1 := by
            rw [stringifyRestFields]
            simp only [List.length_cons, List.length_append, List.length_nil]
            try omega
          rw [(ih m (Nat.lt_succ_self m)).2.2 g gs rest (by omega)]
          rfl

/-- Round-trip at the top level: `JSON.parse` recovers every serialized
value exactly — the fact the runner's whole-expression rendering relies on
to preserve types. -/
theorem jsonParse_stringify (v : Json) : jsonParse (jsonStringify v) = some v := by
  have h := (parse_stringify ((stringifyChars v).length + 1)).1 v [] (by omega) trivial
  rw [List.append_nil] at h
  show jsonParse ⟨stringifyChars v⟩ = some v
  rw [jsonParse]
  simp only [h]

/-- Serialization of a defined value is never the empty string, so the
runner's `templated === ''` check singles out exactly the `undefined`
rendering results. -/
theorem jsonStringify_ne_empty (v : Json) : jsonStringify v ≠ "" := by
  intro h
  exact stringify_ne_nil v (congrArg String.data h)

namespace NunjucksWorkflowRunner

/-- Whole-expression rendering returns the evaluated value itself: the
`dump` rewrite serializes it, the empty-output check does not fire (a
defined value never serializes to the empty string), and the re-parse
recovers it exactly. -/
theorem renderString_whole {s e : String} {ctx v : Json}
    (hp : parseTemplate s = some [Seg.expr e]) (he : evalExpr e ctx = some v) :
    renderString s ctx = some v := by
  simp only [renderString, hp]
  simp only [dumpedOutput, he]
  rw [if_neg (jsonStringify_ne_empty v)]
  rw [jsonParse_stringify]

/-- An empty engine output makes the leaf render to `undefined`, in both
the whole-expression and the plain branch. -/
theorem renderString_empty_drops {s : String} {ctx : Json} {segs : List Seg}
    (hp : parseTemplate s = some segs) (hr : leafRendering s ctx = "") :
    renderString s ctx = none := by
  rw [leafRendering, hp] at hr
  rw [renderString, hp]
  match segs with
  | [] =>
    simp only [renderSegs] at hr ⊢
    simp
  | [Seg.expr e] =>
    simp only []
    rw [if_pos hr]
  | Seg.lit s1 :: rest =>
    simp only [] at hr ⊢
    rw [if_pos hr]
  | Seg.expr e :: sg2 :: rest =>
    simp only [] at hr ⊢
    rw [if_pos hr]

end NunjucksWorkflowRunner

/-- Prepending a literal character preserves literal-onlyness. -/
theorem litOnly_mergeLit (c : Char) (segs : List Seg) :
    litOnly (mergeLit c segs) = litOnly segs := by
  cases segs with
  | nil => rfl
  | cons sg rest => cases sg <;> rfl

/-- Prepending a literal character prepends it to the literal text. -/
theorem segsLitText_mergeLit (c : Char) (segs : List Seg) :
    segsLitText (mergeLit c segs) = c :: segsLitText segs := by
  cases segs with
  | nil => rfl
  | cons sg rest => cases sg <;> rfl

/-- A parse whose segments are all literal carries exactly the input text. -/
theorem parseSegsAux_litOnly :
    ∀ (fuel : Nat) (cs : List Char) (segs : List Seg),
      parseSegsAux fuel cs = some segs → litOnly segs = true → segsLitText segs = cs := by
  intro fuel
  induction fuel with
  | zero =>
    intro cs segs h
    rw [parseSegsAux] at h
    cases h
  | succ fuel ih =>
    intro cs segs h hl
    cases cs with
    | nil =>
      rw [parseSegsAux] at h
      cases h
      rfl
    | cons c cs' =>
      rw [parseSegsAux] at h
      cases hM : openMatch (c :: cs') with
      | some rest =>
        rw [hM] at h
        simp only [] at h
        cases hF : findClose rest with
        | none => rw [hF] at h; cases h
        | some p =>
          obtain ⟨e, r⟩ := p
          rw [hF] at h
          simp only [] at h
          cases hp2 : parseSegsAux fuel r with
          | none => rw [hp2] at h; simp only [] at h; cases h
          | some segs' =>
            rw [hp2] at h
            simp only [] at h
            cases h
            cases hl
      | none =>
        rw [hM] at h
        simp only [] at h
        cases hp2 : parseSegsAux fuel cs' with
        | none => rw [hp2] at h; simp only [] at h; cases h
        | some segs' =>
          rw [hp2] at h
          simp only [] at h
          cases h
          rw [segsLitText_mergeLit]
          rw [litOnly_mergeLit] at hl
          rw [ih cs' segs' hp2 hl]

namespace NunjucksWorkflowRunner

/-- Plain templating of a literal-only segment list returns the literal
text. -/
theorem renderSegs_litOnly :
    ∀ (segs : List Seg) (ctx : Json), litOnly segs = true →
      renderSegs segs ctx = (⟨segsLitText segs⟩ : String) := by
  intro segs
  induction segs with
  | nil => intro ctx _; rfl
  | cons sg rest ih =>
    intro ctx hl
    cases sg with
    | lit s1 =>
      rw [renderSegs, ih ctx hl]
      rfl
    | expr e => cases hl

/-- An expression-free, non-empty string leaf renders to itself. -/
theorem renderString_litOnly {s : String} {ctx : Json}
    (hf : exprFreeStr s = true) (hne : ¬s = "") :
    renderString s ctx = some (.str s) := by
  rw [exprFreeStr] at hf
  cases hp : parseTemplate s with
  | none => rw [hp] at hf; cases hf
  | some segs =>
    rw [hp] at hf
    have htext : segsLitText segs = s.data := parseSegsAux_litOnly _ _ _ hp hf
    have hr : renderSegs segs ctx = s := by
      rw [renderSegs_litOnly segs ctx hf, htext]
    rw [renderString, hp]
    match segs, hf with
    | [], hf =>
      simp only [] at hr ⊢
      rw [if_neg (hr ▸ hne)]
      rw [hr]
    | Seg.lit s1 :: rest, hf =>
      simp only [] at hr ⊢
      rw [if_neg (hr ▸ hne), hr]
    | Seg.expr e :: rest, hf => cases hf

mutual

/-- Rendering an expression-free tree with no empty-string leaf returns the
tree unchanged. -/
theorem render_exprFree :
    ∀ (v : Json) (ctx : Json), exprFree v = true → noEmptyStr v = true →
      render v ctx = some v
  | .null, _, _, _ => rfl
  | .bool _, _, _, _ => rfl
  | .num _, _, _, _ => rfl
  | .str s, ctx, hf, hne => by
    have hne' : ¬s = "" := by
      revert hne
      rw [noEmptyStr]
      simp
    exact renderString_litOnly hf hne'
  | .arr xs, ctx, hf, hne => by
    rw [render, renderElems_exprFree xs ctx hf hne]
  | .obj fs, ctx, hf, hne => by
    rw [render, renderFields_exprFree fs ctx hf hne]

/-- Rendering expression-free array elements returns them unchanged. -/
theorem renderElems_exprFree :
    ∀ (xs : List Json) (ctx : Json), exprFreeElems xs = true → noEmptyStrElems xs = true →
      renderElems xs ctx = xs
  | [], _, _, _ => rfl
  | x :: xs, ctx, hf, hne => by
    rw [exprFreeElems, Bool.and_eq_true] at hf
    rw [noEmptyStrElems, Bool.and_eq_true] at hne
    rw [renderElems, render_exprFree x ctx hf.1 hne.1,
      renderElems_exprFree xs ctx hf.2 hne.2]

/-- Rendering expression-free object fields returns them unchanged. -/
theorem renderFields_exprFree :
    ∀ (fs : List (String × Json)) (ctx : Json),
      exprFreeFields fs = true → noEmptyStrFields fs = true →
      renderFields fs ctx = fs
  | [], _, _, _ => rfl
  | (k, x) :: fs, ctx, hf, hne => by
    rw [exprFreeFields, Bool.and_eq_true] at hf
    rw [noEmptyStrFields, Bool.and_eq_true] at hne
    rw [renderFields, render_exprFree x ctx hf.1 hne.1,
      renderFields_exprFree fs ctx hf.2 hne.2]

end

/-- Every event of a step-body run that is not inherited from the prefix is
one of the step's own events. -/
theorem runStepBody_events_mem (reg : ActionRegistry) (d : Bool)
    (sec : Option (List (String × String))) (step : Step) (ctx : TemplateContext)
    (evs : List Event) :
    ∀ e', e' ∈ (runStepBody reg d sec step ctx evs).events →
      e' ∈ evs ∨ eventOfStep sec step ctx e' := by
  intro e' h'
  cases hreg : reg step.action with
  | none =>
    rw [runStepBody, hreg] at h'
    simp only [List.mem_append, List.mem_cons, List.not_mem_nil, or_false] at h'
    rcases h' with h' | h' | h'
    · exact Or.inl h'
    · exact Or.inr (Or.inr (Or.inr (Or.inl h')))
    · exact Or.inr (Or.inr (Or.inr (Or.inr (Or.inl h'))))
  | some a =>
    rw [runStepBody, hreg] at h'
    try simp only [] at h'
    by_cases hdry : (d && !a.supportsDryRun) = true
    · rw [if_pos hdry] at h'
      try simp only [] at h'
      simp only [List.append_assoc, List.mem_append, List.mem_cons, List.not_mem_nil,
        or_false] at h'
      simp only [eventOfStep]
      tauto
    · rw [if_neg hdry] at h'
      try simp only [] at h'
      cases hinp : step.input with
      | none =>
        rw [hinp] at h'
        try simp only [] at h'
        by_cases hval : (match a.inputSchema with
            | none => true
            | some sch => conforms (stepInputValue sec step ctx) sch) = true
        · rw [if_pos hval] at h'
          cases hh : a.handler (stepInputValue sec step ctx) with
          | error msg =>
            rw [hh] at h'
            try simp only [] at h'
            simp only [List.append_assoc, List.mem_append, List.mem_cons, List.not_mem_nil,
              or_false] at h'
            simp only [eventOfStep]
            tauto
          | ok out =>
            rw [hh] at h'
            try simp only [] at h'
            simp only [List.append_assoc, List.mem_append, List.mem_cons, List.not_mem_nil,
              or_false] at h'
            simp only [eventOfStep]
            tauto
        · rw [if_neg hval] at h'
          try simp only [] at h'
          simp only [List.append_assoc, List.mem_append, List.mem_cons, List.not_mem_nil,
            or_false] at h'
          simp only [eventOfStep]
          tauto
      | some inp =>
        rw [hinp] at h'
        try simp only [] at h'
        by_cases htr : jsTruthy inp = true
        · rw [if_pos htr] at h'
          by_cases hval : (match a.inputSchema with
              | none => true
              | some sch => conforms (stepInputValue sec step ctx) sch) = true
          · rw [if_pos hval] at h'
            cases hh : a.handler (stepInputValue sec step ctx) with
            | error msg =>
              rw [hh] at h'
              try simp only [] at h'
              simp only [List.append_assoc, List.mem_append, List.mem_cons, List.not_mem_nil,
                or_false] at h'
              simp only [eventOfStep]
              tauto
            | ok out =>
              rw [hh] at h'
              try simp only [] at h'
              simp only [List.append_assoc, List.mem_append, List.mem_cons, List.not_mem_nil,
                or_false] at h'
              simp only [eventOfStep]
              tauto
          · rw [if_neg hval] at h'
            try simp only [] at h'
            simp only [List.append_assoc, List.mem_append, List.mem_cons, List.not_mem_nil,
              or_false] at h'
            simp only [eventOfStep]
            tauto
        · rw [if_neg htr] at h'
          by_cases hval : (match a.inputSchema with
              | none => true
              | some sch => conforms (stepInputValue sec step ctx) sch) = true
          · rw [if_pos hval] at h'
            cases hh : a.handler (stepInputValue sec step ctx) with
            | error msg =>
              rw [hh] at h'
              try simp only [] at h'
              simp only [List.append_assoc, List.mem_append, List.mem_cons, List.not_mem_nil,
                or_false] at h'
              simp only [eventOfStep]
              tauto
            | ok out =>
              rw [hh] at h'
              try simp only [] at h'
              simp only [List.append_assoc, List.mem_append, List.mem_cons, List.not_mem_nil,
                or_false] at h'
              simp only [eventOfStep]
              tauto
          · rw [if_neg hval] at h'
            try simp only [] at h'
            simp only [List.append_assoc, List.mem_append, List.mem_cons, List.not_mem_nil,
              or_false] at h'
            simp only [eventOfStep]
            tauto

/-- A falsy conditional short-circuits the step: the context is unchanged
and only the render and skip events are emitted (source lines 218-228). -/
theorem runStep_skip (reg : ActionRegistry) (d : Bool)
    (sec : Option (List (String × String))) (step : Step) (ctx : TemplateContext)
    (c : Json) (hc : step.ifCond = some c)
    (hf : isTruthy (render c (ctxToJson ctx)) = false) :
    runStep reg d sec step ctx =
      ⟨ctx, [.rendered (.ifCond step.id) ctx.secrets, .skippedFalsy step.id], none⟩ := by
  rw [runStep, hc]
  try simp only []
  rw [hf]
  rfl

/-- Without a conditional the step body runs directly. -/
theorem runStep_noIf {step : Step} (reg : ActionRegistry) (d : Bool)
    (sec : Option (List (String × String))) (ctx : TemplateContext)
    (h : step.ifCond = none) :
    runStep reg d sec step ctx = runStepBody reg d sec step ctx [] := by
  rw [runStep, h]

/-- A truthy conditional lets the step body run, after the render event. -/
theorem runStep_ifTrue {step : Step} {c : Json} (reg : ActionRegistry) (d : Bool)
    (sec : Option (List (String × String))) (ctx : TemplateContext)
    (hc : step.ifCond = some c)
    (ht : isTruthy (render c (ctxToJson ctx)) = true) :
    runStep reg d sec step ctx =
      runStepBody reg d sec step ctx [Event.rendered (.ifCond step.id) ctx.secrets] := by
  rw [runStep, hc]
  try simp only []
  rw [ht]
  rfl

/-- Every event a step run emits is one of that step's own events. -/
theorem runStep_events_mem (reg : ActionRegistry) (d : Bool)
    (sec : Option (List (String × String))) (step : Step) (ctx : TemplateContext) :
    ∀ e' ∈ (runStep reg d sec step ctx).events, eventOfStep sec step ctx e' := by
  intro e' h'
  cases hc : step.ifCond with
  | none =>
    rw [runStep_noIf reg d sec ctx hc] at h'
    rcases runStepBody_events_mem reg d sec step ctx [] e' h' with h' | h'
    · cases h'
    · exact h'
  | some c =>
    by_cases ht : isTruthy (render c (ctxToJson ctx)) = true
    · rw [runStep_ifTrue reg d sec ctx hc ht] at h'
      rcases runStepBody_events_mem reg d sec step ctx _ e' h' with h' | h'
      · simp only [List.mem_cons, List.not_mem_nil, or_false] at h'
        exact Or.inl h'
      · exact h'
    · have hf : isTruthy (render c (ctxToJson ctx)) = false := by
        rwa [Bool.not_eq_true] at ht
      rw [runStep_skip reg d sec step ctx c hc hf] at h'
      simp only [List.mem_cons, List.not_mem_nil, or_false] at h'
      rcases h' with h' | h'
      · exact Or.inl h'
      · exact Or.inr (Or.inl h')

/-- Failed action resolution aborts the step (source line 230). -/
theorem runStepBody_notFound {step : Step} (reg : ActionRegistry) (d : Bool)
    (sec : Option (List (String × String))) (ctx : TemplateContext) (evs : List Event)
    (hreg : reg step.action = none) :
    runStepBody reg d sec step ctx evs =
      ⟨ctx, evs ++ [.actionLookup step.id step.action, .stepFailed step.id],
        some (.actionNotFound step.action)⟩ := by
  rw [runStepBody, hreg]

/-- The dry-run short-circuit (source lines 233-246): the handler is not
reached, and the step's context entry is the schema example output, or the
empty mapping without a schema. -/
theorem runStepBody_dryRunSkip {step : Step} {a : TemplateAction} (reg : ActionRegistry)
    (sec : Option (List (String × String))) (ctx : TemplateContext) (evs : List Event)
    (hreg : reg step.action = some a) (ha : a.supportsDryRun = false) :
    runStepBody reg true sec step ctx evs =
      ⟨{ ctx with steps := setKey ctx.steps step.id (dryRunOutput a) },
        evs ++ [.actionLookup step.id step.action, .skippedDryRun step.id], none⟩ := by
  rw [runStepBody, hreg]
  try simp only []
  rw [ha]
  try simp only []
  simp [dryRunOutput]

/-- With the action resolved, dry-run not skipping, and no input schema,
the handler is invoked with the rendered step input (source lines
248-291). -/
theorem runStepBody_invoke {step : Step} {a : TemplateAction} (reg : ActionRegistry)
    (d : Bool) (sec : Option (List (String × String))) (ctx : TemplateContext)
    (evs : List Event) (hreg : reg step.action = some a)
    (hdry : (d && !a.supportsDryRun) = false) (hsch : a.inputSchema = none) :
    Event.handlerInvoked step.id (stepInputValue sec step ctx) ∈
      (runStepBody reg d sec step ctx evs).events := by
  rw [runStepBody, hreg]
  try simp only []
  rw [if_neg (by rw [hdry]; exact Bool.false_ne_true)]
  try simp only []
  rw [hsch]
  try simp only []
  cases hh : a.handler (stepInputValue sec step ctx) with
  | error msg => simp
  | ok out => simp

/-- A step body leaves the context unchanged or writes exactly its own
step's entry. -/
theorem runStepBody_ctx_cases (reg : ActionRegistry) (d : Bool)
    (sec : Option (List (String × String))) (step : Step) (ctx : TemplateContext)
    (evs : List Event) :
    (runStepBody reg d sec step ctx evs).ctx = ctx ∨
      ∃ out, (runStepBody reg d sec step ctx evs).ctx =
        { ctx with steps := setKey ctx.steps step.id out } := by
  cases hreg : reg step.action with
  | none =>
    rw [runStepBody_notFound reg d sec ctx evs hreg]
    exact Or.inl rfl
  | some a =>
    rw [runStepBody, hreg]
    try simp only []
    by_cases hdry : (d && !a.supportsDryRun) = true
    · rw [if_pos hdry]
      exact Or.inr ⟨_, rfl⟩
    · rw [if_neg hdry]
      try simp only []
      by_cases hval : (match a.inputSchema with
          | none => true
          | some sch => conforms (stepInputValue sec step ctx) sch) = true
      · rw [if_pos hval]
        cases hh : a.handler (stepInputValue sec step ctx) with
        | error msg => exact Or.inl rfl
        | ok out => exact Or.inr ⟨_, rfl⟩
      · rw [if_neg hval]
        exact Or.inl rfl

/-- A step run leaves the context unchanged or writes exactly its own
step's entry. -/
theorem runStep_ctx_cases (reg : ActionRegistry) (d : Bool)
    (sec : Option (List (String × String))) (step : Step) (ctx : TemplateContext) :
    (runStep reg d sec step ctx).ctx = ctx ∨
      ∃ out, (runStep reg d sec step ctx).ctx =
        { ctx with steps := setKey ctx.steps step.id out } := by
  cases hc : step.ifCond with
  | none =>
    rw [runStep_noIf reg d sec ctx hc]
    exact runStepBody_ctx_cases reg d sec step ctx []
  | some c =>
    by_cases ht : isTruthy (render c (ctxToJson ctx)) = true
    · rw [runStep_ifTrue reg d sec ctx hc ht]
      exact runStepBody_ctx_cases reg d sec step ctx _
    · have hf : isTruthy (render c (ctxToJson ctx)) = false := by
        rwa [Bool.not_eq_true] at ht
      rw [runStep_skip reg d sec step ctx c hc hf]
      exact Or.inl rfl

/-- Splitting the step list splits the loop, aborting at the first
error. -/
theorem runSteps_append (reg : ActionRegistry) (d : Bool)
    (sec : Option (List (String × String))) :
    ∀ (l1 l2 : List Step) (ctx : TemplateContext) (evs : List Event),
      runSteps reg d sec (l1 ++ l2) ctx evs =
        match runSteps reg d sec l1 ctx evs with
        | (ctx', evs', none) => runSteps reg d sec l2 ctx' evs'
        | (ctx', evs', some e) => (ctx', evs', some e) := by
  intro l1
  induction l1 with
  | nil => intro l2 ctx evs; rfl
  | cons st l1 ih =>
    intro l2 ctx evs
    rw [List.cons_append, runSteps, runSteps]
    cases he : (runStep reg d sec st ctx).error with
    | some e => simp only [he]
    | none =>
      simp only [he]
      exact ih l2 _ _

/-- Every traced event is inherited or belongs to some executed step. -/
theorem runSteps_events_mem (reg : ActionRegistry) (d : Bool)
    (sec : Option (List (String × String))) :
    ∀ (l : List Step) (ctx : TemplateContext) (evs : List Event),
      ∀ e' ∈ (runSteps reg d sec l ctx evs).2.1,
        e' ∈ evs ∨ ∃ st ∈ l, ∃ ctx2, eventOfStep sec st ctx2 e' := by
  intro l
  induction l with
  | nil => intro ctx evs e' h'; exact Or.inl h'
  | cons st l ih =>
    intro ctx evs e' h'
    rw [runSteps] at h'
    cases he : (runStep reg d sec st ctx).error with
    | some e =>
      rw [he] at h'
      simp only [List.mem_append] at h'
      rcases h' with h' | h'
      · exact Or.inl h'
      · exact Or.inr ⟨st, List.mem_cons_self st l, ctx, runStep_events_mem reg d sec st ctx e' h'⟩
    | none =>
      rw [he] at h'
      try simp only [] at h'
      rcases ih _ _ e' h' with h' | ⟨st', hst', ctx2, h'⟩
      · simp only [List.mem_append] at h'
        rcases h' with h' | h'
        · exact Or.inl h'
        · exact Or.inr ⟨st, List.mem_cons_self st l, ctx, runStep_events_mem reg d sec st ctx e' h'⟩
      · exact Or.inr ⟨st', List.mem_cons_of_mem st hst', ctx2, h'⟩

/-- One step run never changes the secrets of the loop context. -/
theorem runStep_preserves_secrets (reg : ActionRegistry) (d : Bool)
    (sec : Option (List (String × String))) (step : Step) (ctx : TemplateContext) :
    ((runStep reg d sec step ctx).ctx).secrets = ctx.secrets := by
  rcases runStep_ctx_cases reg d sec step ctx with h | ⟨out, h⟩ <;> rw [h]

/-- The loop context's secrets never change across the whole loop. -/
theorem runSteps_secrets (reg : ActionRegistry) (d : Bool)
    (sec : Option (List (String × String))) :
    ∀ (l : List Step) (ctx : TemplateContext) (evs : List Event),
      ((runSteps reg d sec l ctx evs).1).secrets = ctx.secrets := by
  intro l
  induction l with
  | nil => intro ctx evs; rfl
  | cons st l ih =>
    intro ctx evs
    rw [runSteps]
    cases he : (runStep reg d sec st ctx).error with
    | some e =>
      simp only [he]
      exact runStep_preserves_secrets reg d sec st ctx
    | none =>
      simp only [he]
      rw [ih _ _]
      exact runStep_preserves_secrets reg d sec st ctx

/-- Secrets shape of every render event of the loop: conditionals render
with the loop context's (absent) secrets, inputs with the task secrets
attached. -/
theorem runSteps_rendered (reg : ActionRegistry) (d : Bool)
    (sec : Option (List (String × String))) :
    ∀ (l : List Step) (ctx : TemplateContext) (evs : List Event),
      ctx.secrets = none →
      ∀ (k : RenderKind) (sec' : Option (List (String × String))),
        Event.rendered k sec' ∈ (runSteps reg d sec l ctx evs).2.1 →
        Event.rendered k sec' ∈ evs ∨
        (∃ sid, k = .ifCond sid ∧ sec' = none) ∨
        (∃ sid, k = .stepInput sid ∧ sec' = some (sec.getD [])) := by
  intro l
  induction l with
  | nil => intro ctx evs _ k sec' h'; exact Or.inl h'
  | cons st l ih =>
    intro ctx evs hsec k sec' h'
    have hstep : ∀ h'' : Event.rendered k sec' ∈ (runStep reg d sec st ctx).events,
        (∃ sid, k = .ifCond sid ∧ sec' = none) ∨
        (∃ sid, k = .stepInput sid ∧ sec' = some (sec.getD [])) := by
      intro h''
      rcases runStep_events_mem reg d sec st ctx _ h'' with
        h2 | h2 | h2 | h2 | h2 | h2 | h2 | h2
      · rw [Event.rendered.injEq] at h2
        exact Or.inl ⟨st.id, h2.1, h2.2.trans hsec⟩
      · cases h2
      · cases h2
      · cases h2
      · cases h2
      · rw [Event.rendered.injEq] at h2
        exact Or.inr ⟨st.id, h2.1, h2.2⟩
      · cases h2
      · cases h2
    rw [runSteps] at h'
    cases he : (runStep reg d sec st ctx).error with
    | some e =>
      rw [he] at h'
      simp only [List.mem_append] at h'
      rcases h' with h' | h'
      · exact Or.inl h'
      · exact Or.inr (hstep h')
    | none =>
      rw [he] at h'
      try simp only [] at h'
      have hsec2 : ((runStep reg d sec st ctx).ctx).secrets = none :=
        (runStep_preserves_secrets reg d sec st ctx).trans hsec
      rcases ih _ _ hsec2 k sec' h' with h' | h'
      · simp only [List.mem_append] at h'
        rcases h' with h' | h'
        · exact Or.inl h'
        · exact Or.inr (hstep h')
      · exact Or.inr h'

end NunjucksWorkflowRunner

/-- A key present after an assignment was assigned or already present. -/
theorem lookupKey_setKey_mem :
    ∀ (m : List (String × Json)) (k0 : String) (v : Json) (k : String),
      ¬lookupKey (setKey m k0 v) k = none → k = k0 ∨ ¬lookupKey m k = none := by
  intro m
  induction m with
  | nil =>
    intro k0 v k h
    rw [setKey, lookupKey] at h
    by_cases hk : k0 = k
    · exact Or.inl hk.symm
    · rw [if_neg hk, lookupKey] at h
      exact absurd rfl h
  | cons p rest ih =>
    intro k0 v k h
    obtain ⟨k', v'⟩ := p
    rw [setKey] at h
    by_cases h0 : k' = k0
    · rw [if_pos h0] at h
      rw [lookupKey] at h
      by_cases hk : k0 = k
      · exact Or.inl hk.symm
      · rw [if_neg hk] at h
        refine Or.inr ?_
        rw [lookupKey, h0, if_neg hk]
        exact h
    · rw [if_neg h0] at h
      rw [lookupKey] at h
      by_cases hk : k' = k
      · refine Or.inr ?_
        rw [lookupKey, if_pos hk]
        simp
      · rw [if_neg hk] at h
        rcases ih k0 v k h with h2 | h2
        · exact Or.inl h2
        · refine Or.inr ?_
          rw [lookupKey, if_neg hk]
          exact h2

namespace NunjucksWorkflowRunner

/-- Keys of the loop context only come from the initial context or from
the ids of executed steps. -/
theorem runSteps_keys (reg : ActionRegistry) (d : Bool)
    (sec : Option (List (String × String))) :
    ∀ (l : List Step) (ctx : TemplateContext) (evs : List Event) (k : String),
      ¬lookupKey ((runSteps reg d sec l ctx evs).1).steps k = none →
      ¬lookupKey ctx.steps k = none ∨ k ∈ l.map Step.id := by
  intro l
  induction l with
  | nil => intro ctx evs k h; exact Or.inl h
  | cons st l ih =>
    intro ctx evs k h
    have hstep : ∀ hk : ¬lookupKey ((runStep reg d sec st ctx).ctx).steps k = none,
        ¬lookupKey ctx.steps k = none ∨ k = st.id := by
      intro hk
      rcases runStep_ctx_cases reg d sec st ctx with h2 | ⟨out, h2⟩
      · rw [h2] at hk
        exact Or.inl hk
      · rw [h2] at hk
        simp only [] at hk
        rcases lookupKey_setKey_mem ctx.steps st.id out k hk with h3 | h3
        · exact Or.inr h3
        · exact Or.inl h3
    rw [runSteps] at h
    cases he : (runStep reg d sec st ctx).error with
    | some e =>
      rw [he] at h
      try simp only [] at h
      rcases hstep h with h2 | h2
      · exact Or.inl h2
      · exact Or.inr (by simp [h2])
    | none =>
      rw [he] at h
      try simp only [] at h
      rcases ih _ _ k h with h2 | h2
      · rcases hstep h2 with h3 | h3
        · exact Or.inl h3
        · exact Or.inr (by simp [h3])
      · exact Or.inr (by simp [h2])

end NunjucksWorkflowRunner

/-! ## Context lookup lemmas -/

/-- Lookup through a key-preserving map of the values. -/
theorem lookupField_map_wrap :
    ∀ (m : List (String × Json)) (k : String),
      Json.lookupField (m.map fun p => (p.1, Json.obj [("output", p.2)])) k =
        (lookupKey m k).map fun v => Json.obj [("output", v)] := by
  intro m
  induction m with
  | nil => intro k; rfl
  | cons p rest ih =>
    intro k
    obtain ⟨k', v'⟩ := p
    rw [List.map_cons, Json.lookupField, lookupKey]
    by_cases hk : k' = k
    · rw [if_pos hk, if_pos hk]
      rfl
    · rw [if_neg hk, if_neg hk]
      exact ih k

/-- The context object's `steps` property. -/
theorem ctxToJson_getField_steps (ctx : TemplateContext) :
    (ctxToJson ctx).getField "steps" = some (stepsToJson ctx.steps) := rfl

/-- Template lookups against a step with no entry fail: both the entry
itself and any path through its `output` evaluate to `undefined`. -/
theorem evalPath_skipped_step (ctx : TemplateContext) (sid : String)
    (h : lookupKey ctx.steps sid = none) :
    evalPath (ctxToJson ctx) ["steps", sid] = none ∧
      evalPath (ctxToJson ctx) ["steps", sid, "output"] = none := by
  have hs : (stepsToJson ctx.steps).getField sid = none := by
    rw [stepsToJson, Json.getField, lookupField_map_wrap, h]
    rfl
  constructor
  · simp [evalPath, ctxToJson_getField_steps, hs]
  · simp [evalPath, ctxToJson_getField_steps, hs]

/-- The membership test decides membership. -/
theorem memStr_iff : ∀ (l : List String) (k : String), memStr k l = true ↔ k ∈ l := by
  intro l
  induction l with
  | nil => intro k; simp [memStr]
  | cons x xs ih =>
    intro k
    rw [memStr, Bool.or_eq_true, beq_iff_eq, ih]
    simp [eq_comm]

/-- With distinct keys, the generated example object maps each declared
property to the example of its own schema. -/
theorem lookupField_generateExampleProps :
    ∀ (props : List (String × Schema)) (k : String) (sch : Schema),
      keysDistinct (props.map Prod.fst) = true → (k, sch) ∈ props →
      Json.lookupField (generateExampleProps props) k =
        some (generateExampleOutput sch) := by
  intro props
  induction props with
  | nil => intro k sch _ hmem; cases hmem
  | cons q ps ih =>
    intro k sch hd hmem
    obtain ⟨k0, sch0⟩ := q
    rw [List.map_cons, keysDistinct, Bool.and_eq_true] at hd
    rw [generateExampleProps, Json.lookupField]
    rcases List.mem_cons.mp hmem with heq | hmem2
    · rw [Prod.mk.injEq] at heq
      rw [if_pos heq.1.symm, heq.2]
    · have hk : ¬k0 = k := by
        intro hk0
        have h1 : k ∈ ps.map Prod.fst := List.mem_map.mpr ⟨(k, sch), hmem2, rfl⟩
        have h2 : memStr k0 (ps.map Prod.fst) = true := (memStr_iff _ _).mpr (hk0 ▸ h1)
        rw [h2] at hd
        exact absurd hd.1 (by simp)
      rw [if_neg hk]
      exact ih k sch hd.2 hmem2

/-- Pointwise conformance of the present properties gives object
conformance. -/
theorem conformsProps_of_pointwise :
    ∀ (props : List (String × Schema)) (v : Json),
      (∀ (k : String) (sch : Schema), (k, sch) ∈ props →
        ∀ w, v.getField k = some w → conforms w sch = true) →
      conformsProps v props = true := by
  intro props
  induction props with
  | nil => intro v _; simp [conformsProps]
  | cons q ps ih =>
    intro v hpt
    obtain ⟨k0, sch0⟩ := q
    rw [conformsProps, Bool.and_eq_true]
    constructor
    · cases hw : v.getField k0 with
      | none => rfl
      | some w => exact hpt k0 sch0 (List.mem_cons_self _ _) w hw
    · exact ih v fun k sch hmem w hw => hpt k sch (List.mem_cons_of_mem _ hmem) w hw

mutual

/-- The spec-modelled example generator produces schema-conforming output
for every well-formed schema. -/
theorem generateExampleOutput_conforms :
    ∀ sch : Schema, schemaWF sch = true → conforms (generateExampleOutput sch) sch = true
  | .sString, _ => by simp [generateExampleOutput, conforms]
  | .sNumber, _ => by simp [generateExampleOutput, conforms]
  | .sBoolean, _ => by simp [generateExampleOutput, conforms]
  | .sNull, _ => by simp [generateExampleOutput, conforms]
  | .sArray e, h => by
    rw [schemaWF] at h
    rw [generateExampleOutput, conforms, conformsElems,
      generateExampleOutput_conforms e h]
    simp [conformsElems]
  | .sObject props, h => by
    rw [schemaWF, Bool.and_eq_true] at h
    rw [generateExampleOutput, conforms]
    apply conformsProps_of_pointwise
    intro k sch hmem w hw
    rw [Json.getField, lookupField_generateExampleProps props k sch h.1 hmem] at hw
    cases hw
    exact generateExampleProps_conforms props h.2 (k, sch) hmem

/-- Conformance of the example of every property schema. -/
theorem generateExampleProps_conforms :
    ∀ (props : List (String × Schema)), schemaWFProps props = true →
      ∀ p ∈ props, conforms (generateExampleOutput p.2) p.2 = true
  | [], _, p, hp => absurd hp (List.not_mem_nil p)
  | q :: ps, h, p, hp => by
    rw [schemaWFProps, Bool.and_eq_true] at h
    rcases List.mem_cons.mp hp with heq | hp2
    · rw [heq]
      exact generateExampleOutput_conforms q.2 h.1
    · exact generateExampleProps_conforms ps h.2 p hp2

end

/-! ## Claims -/

/-- C1: for every whole-expression string leaf (a string that is exactly
one template expression with no surrounding literal text, as classified by
`isSingleTemplateString`), `render` evaluates the expression and returns a
value of the expression's original type rather than a string; in
particular, rendering `"$\x7b\x7b parameters.count \x7d\x7d"` against a
context with `parameters.count = 3` yields the number `3`, while rendering
the mixed-text string `"prefix-$\x7b\x7b parameters.count \x7d\x7d"`
yields the string `"prefix-3"`. -/
theorem c1_whole_expression_preserves_type
    (s e : String) (ctx v : Json)
    (hp : parseTemplate s = some [Seg.expr e]) (he : evalExpr e ctx = some v) :
    (NunjucksWorkflowRunner.isSingleTemplateString s = true ∧
      NunjucksWorkflowRunner.render (.str s) ctx = some v) ∧
    NunjucksWorkflowRunner.render (.str "$\x7b\x7b parameters.count \x7d\x7d")
        (ctxToJson ⟨[("count", Json.num 3)], [], none, none⟩) = some (Json.num 3) ∧
    NunjucksWorkflowRunner.render (.str "prefix-$\x7b\x7b parameters.count \x7d\x7d")
        (ctxToJson ⟨[("count", Json.num 3)], [], none, none⟩) =
      some (Json.str "prefix-3") := by
  refine ⟨⟨?_, ?_⟩, rfl, rfl⟩
  · rw [NunjucksWorkflowRunner.isSingleTemplateString, hp]
  · exact NunjucksWorkflowRunner.renderString_whole hp he

/-- Witness for C1 at the spec's own example. -/
theorem c1_witness :
    NunjucksWorkflowRunner.render (.str "$\x7b\x7b parameters.count \x7d\x7d")
        (ctxToJson ⟨[("count", Json.num 3)], [], none, none⟩) = some (Json.num 3) :=
  (c1_whole_expression_preserves_type "$\x7b\x7b parameters.count \x7d\x7d"
    " parameters.count " (ctxToJson ⟨[("count", Json.num 3)], [], none, none⟩)
    (Json.num 3) rfl rfl).1.2

/-- C7: for every string leaf whose engine rendering yields the empty
string — in the whole-expression branch the dump-wrapped output, in the
mixed-text branch the plain templating output — the leaf is dropped
(becomes `undefined`): it renders to `none` and is absent from a
containing object or array. -/
theorem c7_empty_rendering_drops_leaf
    (s : String) (ctx : Json) (segs : List Seg)
    (hp : parseTemplate s = some segs)
    (hr : NunjucksWorkflowRunner.leafRendering s ctx = "") :
    NunjucksWorkflowRunner.render (.str s) ctx = none ∧
    (∀ (k : String) (fs : List (String × Json)),
      NunjucksWorkflowRunner.renderFields ((k, .str s) :: fs) ctx =
        NunjucksWorkflowRunner.renderFields fs ctx) ∧
    (∀ xs : List Json,
      NunjucksWorkflowRunner.renderElems (.str s :: xs) ctx =
        NunjucksWorkflowRunner.renderElems xs ctx) := by
  have h0 := NunjucksWorkflowRunner.renderString_empty_drops hp hr
  refine ⟨h0, ?_, ?_⟩
  · intro k fs
    rw [NunjucksWorkflowRunner.renderFields]
    have h1 : NunjucksWorkflowRunner.render (.str s) ctx = none := h0
    rw [h1]
  · intro xs
    rw [NunjucksWorkflowRunner.renderElems]
    have h1 : NunjucksWorkflowRunner.render (.str s) ctx = none := h0
    rw [h1]

/-- Witness for C7: an expression over an absent path renders empty and
the leaf disappears. -/
theorem c7_witness :
    NunjucksWorkflowRunner.render (.str "$\x7b\x7b missing \x7d\x7d") (.obj []) = none :=
  (c7_empty_rendering_drops_leaf "$\x7b\x7b missing \x7d\x7d" (.obj [])
    [Seg.expr " missing "] rfl rfl).1

/-- C8 counterexample: the empty string is a value tree containing no
template expressions, yet `render` drops it (`undefined`) instead of
returning a deep-equal value — the claim as stated fails. -/
theorem c8_counterexample :
    exprFree (.str "") = true ∧
    NunjucksWorkflowRunner.render (.str "") (.obj []) = none ∧
    (none : Option Json) ≠ some (.str "") := by
  refine ⟨rfl, rfl, ?_⟩
  simp

/-- C8 (amended): for every value tree containing no template expressions
and no empty-string leaf, `render` returns a value deep-equal to its input
(non-string leaves pass through unchanged, array order and object key sets
are preserved, and expression-free strings are returned as-is). -/
theorem c8_exprfree_render_identity (v ctx : Json)
    (hf : exprFree v = true) (hne : noEmptyStr v = true) :
    NunjucksWorkflowRunner.render v ctx = some v :=
  NunjucksWorkflowRunner.render_exprFree v ctx hf hne

/-- Witness for the amended C8 on a mixed concrete tree. -/
theorem c8_witness :
    NunjucksWorkflowRunner.render
        (.obj [("a", .num 1), ("b", .str "x"), ("c", .arr [.bool true, .str "yz"]),
          ("d", .null)])
        (.obj []) =
      some (.obj [("a", .num 1), ("b", .str "x"), ("c", .arr [.bool true, .str "yz"]),
        ("d", .null)]) :=
  c8_exprfree_render_identity
    (.obj [("a", .num 1), ("b", .str "x"), ("c", .arr [.bool true, .str "yz"]),
      ("d", .null)])
    (.obj []) rfl rfl

namespace NunjucksWorkflowRunner

/-- The final context of `execute` is the loop's final context, on both
the success and the error path. -/
theorem execute_finalContext (reg : ActionRegistry) (task : TaskContext)
    (hv : task.apiVersion = supportedApiVersion) :
    (execute reg task).finalContext =
      (runSteps reg task.isDryRun task.secrets task.steps (initialContext task) []).1 := by
  rw [execute, if_pos hv]
  rcases hr : runSteps reg task.isDryRun task.secrets task.steps (initialContext task) []
    with ⟨ctx', evs', err⟩
  cases err with
  | none => rfl
  | some e => rfl

/-- Only the step's own id can appear in a handler-invocation event of that
step. -/
theorem eventOfStep_handlerId {sec : Option (List (String × String))} {st : Step}
    {ctx : TemplateContext} {sid : String} {inp : Json}
    (h : eventOfStep sec st ctx (Event.handlerInvoked sid inp)) : sid = st.id := by
  rcases h with h | h | h | h | h | h | h | h
  · cases h
  · cases h
  · cases h
  · cases h
  · cases h
  · cases h
  · rw [Event.handlerInvoked.injEq] at h
    exact h.1
  · cases h

end NunjucksWorkflowRunner

/-- C2: a step whose conditional renders falsy creates no entry in the
context's steps map: the final context has no entry under the skipped
step's id, and a template lookup of the skipped step's output evaluates to
`undefined` (the lookup fails) rather than silently producing a value. -/
theorem c2_skipped_step_no_entry
    (registry : ActionRegistry) (task : TaskContext)
    (pre : List Step) (s : Step) (post : List Step) (c : Json)
    (ctx1 : TemplateContext) (evs1 : List Event)
    (hv : task.apiVersion = NunjucksWorkflowRunner.supportedApiVersion)
    (hsteps : task.steps = pre ++ s :: post)
    (hnodup : (task.steps.map Step.id).Nodup)
    (hpre : NunjucksWorkflowRunner.runSteps registry task.isDryRun task.secrets pre
        (NunjucksWorkflowRunner.initialContext task) [] = (ctx1, evs1, none))
    (hc : s.ifCond = some c)
    (hf : isTruthy (NunjucksWorkflowRunner.render c (ctxToJson ctx1)) = false) :
    lookupKey ((NunjucksWorkflowRunner.execute registry task).finalContext).steps s.id =
      none ∧
    evalPath (ctxToJson ((NunjucksWorkflowRunner.execute registry task).finalContext))
      ["steps", s.id, "output"] = none := by
  rw [hsteps, List.map_append, List.map_cons, List.nodup_append] at hnodup
  obtain ⟨hn1, hn2, hdisj⟩ := hnodup
  rw [List.nodup_cons] at hn2
  have hs_pre : s.id ∉ pre.map Step.id := fun h => (hdisj h) (List.mem_cons_self _ _)
  have hs_post : s.id ∉ post.map Step.id := hn2.1
  have hfc := NunjucksWorkflowRunner.execute_finalContext registry task hv
  rw [hsteps, NunjucksWorkflowRunner.runSteps_append, hpre] at hfc
  try simp only [] at hfc
  rw [NunjucksWorkflowRunner.runSteps] at hfc
  try simp only [] at hfc
  rw [NunjucksWorkflowRunner.runStep_skip registry task.isDryRun task.secrets s ctx1 c hc hf]
    at hfc
  try simp only [] at hfc
  have habs :
      lookupKey ((NunjucksWorkflowRunner.execute registry task).finalContext).steps s.id =
        none := by
    by_contra hne
    rw [hfc] at hne
    rcases NunjucksWorkflowRunner.runSteps_keys registry task.isDryRun task.secrets post ctx1
        _ s.id hne with h2 | h2
    · have h3 : ¬lookupKey
          ((NunjucksWorkflowRunner.runSteps registry task.isDryRun task.secrets pre
            (NunjucksWorkflowRunner.initialContext task) []).1).steps s.id = none := by
        rw [hpre]
        exact h2
      rcases NunjucksWorkflowRunner.runSteps_keys registry task.isDryRun task.secrets pre
          (NunjucksWorkflowRunner.initialContext task) [] s.id h3 with h4 | h4
      · exact h4 rfl
      · exact hs_pre h4
    · exact hs_post h2
  exact ⟨habs, (evalPath_skipped_step _ s.id habs).2⟩

/-- Witness for C2: a skipped first step (against a registry that knows no
actions at all) leaves no entry under its id. -/
theorem c2_witness :
    lookupKey ((NunjucksWorkflowRunner.execute (fun _ => none) taskSkip).finalContext).steps
      "s1" = none :=
  (c2_skipped_step_no_entry (fun _ => none) taskSkip [] stepSkip [stepC] (.bool false)
    (NunjucksWorkflowRunner.initialContext taskSkip) [] rfl rfl (by decide) rfl rfl rfl).1

/-- C3: the secrets mapping is present in the rendering context only while
rendering a step's input: every conditional render event and the task
output render event carry a context without secrets, while every step
input render event carries the task's secrets mapping. -/
theorem c3_secrets_isolation
    (registry : ActionRegistry) (task : TaskContext)
    (k : RenderKind) (sec' : Option (List (String × String)))
    (hmem : Event.rendered k sec' ∈ (NunjucksWorkflowRunner.execute registry task).events) :
    ((∃ sid, k = RenderKind.ifCond sid) → sec' = none) ∧
    (k = RenderKind.taskOutput → sec' = none) ∧
    ((∃ sid, k = RenderKind.stepInput sid) → sec' = some (task.secrets.getD [])) := by
  by_cases hv : task.apiVersion = NunjucksWorkflowRunner.supportedApiVersion
  case neg =>
    rw [NunjucksWorkflowRunner.execute, if_neg hv] at hmem
    cases hmem
  case pos =>
  have build :
      ((∃ sid, k = RenderKind.ifCond sid ∧ sec' = none) ∨
        (∃ sid, k = RenderKind.stepInput sid ∧ sec' = some (task.secrets.getD []))) →
      ((∃ sid, k = RenderKind.ifCond sid) → sec' = none) ∧
      (k = RenderKind.taskOutput → sec' = none) ∧
      ((∃ sid, k = RenderKind.stepInput sid) → sec' = some (task.secrets.getD [])) := by
    rintro (⟨sid, rfl, hs⟩ | ⟨sid, rfl, hs⟩)
    · refine ⟨fun _ => hs, ?_, ?_⟩
      · intro h
        cases h
      · rintro ⟨sid2, h⟩
        cases h
    · refine ⟨?_, ?_, fun _ => hs⟩
      · rintro ⟨sid2, h⟩
        cases h
      · intro h
        cases h
  rw [NunjucksWorkflowRunner.execute, if_pos hv] at hmem
  rcases hr : NunjucksWorkflowRunner.runSteps registry task.isDryRun task.secrets task.steps
      (NunjucksWorkflowRunner.initialContext task) [] with ⟨ctx', evs', err⟩
  rw [hr] at hmem
  have hloop : Event.rendered k sec' ∈ evs' →
      (∃ sid, k = RenderKind.ifCond sid ∧ sec' = none) ∨
        (∃ sid, k = RenderKind.stepInput sid ∧ sec' = some (task.secrets.getD [])) := by
    intro h
    have h2 := NunjucksWorkflowRunner.runSteps_rendered registry task.isDryRun task.secrets
      task.steps (NunjucksWorkflowRunner.initialContext task) [] rfl k sec'
      (by rw [hr]; exact h)
    rcases h2 with h2 | h2 | h2
    · cases h2
    · exact Or.inl h2
    · exact Or.inr h2
  cases err with
  | some e =>
    try simp only [] at hmem
    exact build (hloop hmem)
  | none =>
    try simp only [] at hmem
    rw [List.mem_append] at hmem
    rcases hmem with h | h
    · exact build (hloop h)
    · simp only [List.mem_cons, List.not_mem_nil, or_false] at h
      rw [Event.rendered.injEq] at h
      obtain ⟨hk, hs⟩ := h
      have hsec : ctx'.secrets = none := by
        have h3 := NunjucksWorkflowRunner.runSteps_secrets registry task.isDryRun task.secrets
          task.steps (NunjucksWorkflowRunner.initialContext task) []
        rw [hr] at h3
        exact h3
      subst hk
      refine ⟨?_, fun _ => hs.trans hsec, ?_⟩
      · rintro ⟨sid2, h⟩
        cases h
      · rintro ⟨sid2, h⟩
        cases h

/-- Witness for C3 at a concrete conditional render event. -/
theorem c3_witness :
    ((∃ sid, RenderKind.ifCond "s1" = RenderKind.ifCond sid) →
      (none : Option (List (String × String))) = none) ∧
    (RenderKind.ifCond "s1" = RenderKind.taskOutput →
      (none : Option (List (String × String))) = none) ∧
    ((∃ sid, RenderKind.ifCond "s1" = RenderKind.stepInput sid) →
      (none : Option (List (String × String))) = some (taskSkip.secrets.getD [])) :=
  c3_secrets_isolation regEx taskSkip (RenderKind.ifCond "s1") none (List.Mem.head _)

/-- C4: the workflow is fail-fast: when a step fails (its handler throws,
its input validation throws, or its action resolution throws — every
`some`-error outcome of `runStep`), no later step's handler is ever
invoked, `execute` propagates that first failure as its result, and the
workspace is still removed. -/
theorem c4_fail_fast
    (registry : ActionRegistry) (task : TaskContext)
    (pre : List Step) (s : Step) (post : List Step)
    (ctx1 : TemplateContext) (evs1 : List Event) (e : RunError)
    (hv : task.apiVersion = NunjucksWorkflowRunner.supportedApiVersion)
    (hsteps : task.steps = pre ++ s :: post)
    (hnodup : (task.steps.map Step.id).Nodup)
    (hpre : NunjucksWorkflowRunner.runSteps registry task.isDryRun task.secrets pre
        (NunjucksWorkflowRunner.initialContext task) [] = (ctx1, evs1, none))
    (herr : (NunjucksWorkflowRunner.runStep registry task.isDryRun task.secrets s ctx1).error =
      some e) :
    (NunjucksWorkflowRunner.execute registry task).result = .error e ∧
    (NunjucksWorkflowRunner.execute registry task).workspaceRemoved = true ∧
    ∀ s' ∈ post, ∀ inp,
      Event.handlerInvoked s'.id inp ∉ (NunjucksWorkflowRunner.execute registry task).events := by
  rw [hsteps, List.map_append, List.map_cons, List.nodup_append] at hnodup
  obtain ⟨hn1, hn2, hdisj⟩ := hnodup
  rw [List.nodup_cons] at hn2
  have hrun : NunjucksWorkflowRunner.runSteps registry task.isDryRun task.secrets task.steps
      (NunjucksWorkflowRunner.initialContext task) [] =
      ((NunjucksWorkflowRunner.runStep registry task.isDryRun task.secrets s ctx1).ctx,
        evs1 ++ (NunjucksWorkflowRunner.runStep registry task.isDryRun task.secrets s
          ctx1).events, some e) := by
    rw [hsteps, NunjucksWorkflowRunner.runSteps_append, hpre]
    try simp only []
    rw [NunjucksWorkflowRunner.runSteps]
    try simp only []
    rw [herr]
  rw [NunjucksWorkflowRunner.execute, if_pos hv, hrun]
  refine ⟨rfl, rfl, ?_⟩
  intro s' hs' inp hmem
  have hs'post : s'.id ∈ post.map Step.id := List.mem_map.mpr ⟨s', hs', rfl⟩
  try simp only [] at hmem
  rw [List.mem_append] at hmem
  rcases hmem with h | h
  · have h2 := NunjucksWorkflowRunner.runSteps_events_mem registry task.isDryRun task.secrets
      pre (NunjucksWorkflowRunner.initialContext task) [] _ (by rw [hpre]; exact h)
    rcases h2 with h2 | ⟨st, hst, ctx2, h2⟩
    · cases h2
    · have hid : s'.id = st.id := NunjucksWorkflowRunner.eventOfStep_handlerId h2
      have hstpre : st.id ∈ pre.map Step.id := List.mem_map.mpr ⟨st, hst, rfl⟩
      exact (hdisj (hid ▸ hstpre)) (List.mem_cons_of_mem _ hs'post)
  · have h2 := NunjucksWorkflowRunner.runStep_events_mem registry task.isDryRun task.secrets
      s ctx1 _ h
    have hid : s'.id = s.id := NunjucksWorkflowRunner.eventOfStep_handlerId h2
    exact hn2.1 (hid ▸ hs'post)

/-- Witness for C4: in the three-step task [A succeeds, B fails, C], the
failure of B is the task's result, the workspace is removed, and C's
handler is never invoked. -/
theorem c4_witness :
    (NunjucksWorkflowRunner.execute regEx taskEx).result =
      .error (.handlerFailed "boom") ∧
    (NunjucksWorkflowRunner.execute regEx taskEx).workspaceRemoved = true ∧
    ∀ inp, Event.handlerInvoked "c" inp ∉ (NunjucksWorkflowRunner.execute regEx taskEx).events := by
  have h := c4_fail_fast regEx taskEx [stepA] stepB [stepC]
    ⟨[("count", .num 3)], [("a", .obj [("x", .num 1)])], none, none⟩
    [.actionLookup "a" "act-a", .handlerInvoked "a" (.obj []), .stepSucceeded "a"]
    (.handlerFailed "boom") rfl rfl (by decide) rfl rfl
  exact ⟨h.1, h.2.1, fun inp => h.2.2 stepC (List.mem_cons_self _ _) inp⟩

/-- C5 counterexample: the boolean `false` is not among the claim's
enumerated falsy values (empty string, the string `"false"`,
absent/undefined, numeric zero, empty collection), so by the claim's
"every other value coerces to true" it would have to be truthy — but the
coercion sends it to false. -/
theorem c5_counterexample :
    isTruthy (some (.bool false)) = false ∧
    ¬(some (Json.bool false) = none ∨ some (Json.bool false) = some .null ∨
      some (Json.bool false) = some (.str "") ∨
      some (Json.bool false) = some (.str "false") ∨
      some (Json.bool false) = some (.num 0) ∨
      some (Json.bool false) = some (.arr []) ∨
      some (Json.bool false) = some (.obj [])) := by
  refine ⟨rfl, ?_⟩
  simp

/-- C5 (amended): the rendered conditional is coerced to a boolean by the
rule that absent/undefined (including `null`), the boolean `false`, the
empty string, the string `"false"`, numeric zero and the empty collections
coerce to false and every other value to true; and the step's handler runs
exactly when the coercion yields true (given the action resolves, the
dry-run short-circuit does not fire, and validation passes). -/
theorem c5_if_coercion_gates_handler :
    (∀ r : Option Json,
      isTruthy r = true ↔
        ¬(r = none ∨ r = some .null ∨ r = some (.bool false) ∨ r = some (.str "") ∨
          r = some (.str "false") ∨ r = some (.num 0) ∨ r = some (.arr []) ∨
          r = some (.obj []))) ∧
    (∀ (reg : ActionRegistry) (d : Bool) (sec : Option (List (String × String)))
        (s : Step) (ctx : TemplateContext) (c : Json), s.ifCond = some c →
      (isTruthy (NunjucksWorkflowRunner.render c (ctxToJson ctx)) = false →
        ∀ inp, Event.handlerInvoked s.id inp ∉
          (NunjucksWorkflowRunner.runStep reg d sec s ctx).events) ∧
      (∀ a : TemplateAction, isTruthy (NunjucksWorkflowRunner.render c (ctxToJson ctx)) = true →
        reg s.action = some a → (d && !a.supportsDryRun) = false → a.inputSchema = none →
        Event.handlerInvoked s.id (NunjucksWorkflowRunner.stepInputValue sec s ctx) ∈
          (NunjucksWorkflowRunner.runStep reg d sec s ctx).events)) := by
  constructor
  · intro r
    match r with
    | none => simp [isTruthy]
    | some .null => simp [isTruthy]
    | some (.bool b) => cases b <;> simp [isTruthy]
    | some (.num n) => simp [isTruthy]
    | some (.str s) => simp [isTruthy]
    | some (.arr []) => simp [isTruthy]
    | some (.arr (x :: xs)) => simp [isTruthy]
    | some (.obj []) => simp [isTruthy]
    | some (.obj (f :: fs)) => simp [isTruthy]
  · intro reg d sec s ctx c hc
    constructor
    · intro hf inp hmem
      rw [NunjucksWorkflowRunner.runStep_skip reg d sec s ctx c hc hf] at hmem
      simp only [List.mem_cons, List.not_mem_nil, or_false] at hmem
      rcases hmem with h | h <;> cases h
    · intro a ht hreg hdry hsch
      rw [NunjucksWorkflowRunner.runStep_ifTrue reg d sec ctx hc ht]
      exact NunjucksWorkflowRunner.runStepBody_invoke reg d sec ctx _ hreg hdry hsch

/-- Witness for C5: a concrete falsy value, and a concrete step with a
truthy conditional whose handler is invoked. -/
theorem c5_witness :
    (isTruthy (some (.str "false")) = true ↔
      ¬(some (Json.str "false") = none ∨ some (Json.str "false") = some .null ∨
        some (Json.str "false") = some (.bool false) ∨
        some (Json.str "false") = some (.str "") ∨
        some (Json.str "false") = some (.str "false") ∨
        some (Json.str "false") = some (.num 0) ∨
        some (Json.str "false") = some (.arr []) ∨
        some (Json.str "false") = some (.obj []))) ∧
    Event.handlerInvoked "s2"
        (NunjucksWorkflowRunner.stepInputValue none stepIfTrue ctxW) ∈
      (NunjucksWorkflowRunner.runStep regEx false none stepIfTrue ctxW).events :=
  ⟨c5_if_coercion_gates_handler.1 (some (.str "false")),
    (c5_if_coercion_gates_handler.2 regEx false none stepIfTrue ctxW (.bool true) rfl).2
      actA rfl rfl rfl rfl⟩

/-- C6: under a dry-run task, a step whose resolved action does not
support dry-run never invokes the handler; its context entry is the
schema-derived example output (conforming to the schema, for any
well-formed schema) or the empty mapping without a schema; and execution
advances (no error). -/
theorem c6_dry_run_skip
    (reg : ActionRegistry) (sec : Option (List (String × String)))
    (s : Step) (ctx : TemplateContext) (a : TemplateAction)
    (hgate : s.ifCond = none ∨
      ∃ c, s.ifCond = some c ∧
        isTruthy (NunjucksWorkflowRunner.render c (ctxToJson ctx)) = true)
    (hreg : reg s.action = some a) (ha : a.supportsDryRun = false) :
    (∀ inp, Event.handlerInvoked s.id inp ∉
      (NunjucksWorkflowRunner.runStep reg true sec s ctx).events) ∧
    (NunjucksWorkflowRunner.runStep reg true sec s ctx).error = none ∧
    ((NunjucksWorkflowRunner.runStep reg true sec s ctx).ctx).steps =
      setKey ctx.steps s.id (NunjucksWorkflowRunner.dryRunOutput a) ∧
    (∀ sch, a.outputSchema = some sch →
      NunjucksWorkflowRunner.dryRunOutput a = generateExampleOutput sch ∧
      (schemaWF sch = true → conforms (generateExampleOutput sch) sch = true)) ∧
    (a.outputSchema = none → NunjucksWorkflowRunner.dryRunOutput a = .obj []) := by
  have hrw : NunjucksWorkflowRunner.runStep reg true sec s ctx =
      ⟨{ ctx with steps := setKey ctx.steps s.id (NunjucksWorkflowRunner.dryRunOutput a) },
        (match s.ifCond with
          | none => ([] : List Event)
          | some _ => [Event.rendered (.ifCond s.id) ctx.secrets]) ++
          [.actionLookup s.id s.action, .skippedDryRun s.id], none⟩ := by
    rcases hgate with hg | ⟨c, hc, ht⟩
    · rw [NunjucksWorkflowRunner.runStep_noIf reg true sec ctx hg,
        NunjucksWorkflowRunner.runStepBody_dryRunSkip reg sec ctx [] hreg ha, hg]
    · rw [NunjucksWorkflowRunner.runStep_ifTrue reg true sec ctx hc ht,
        NunjucksWorkflowRunner.runStepBody_dryRunSkip reg sec ctx _ hreg ha, hc]
  rw [hrw]
  refine ⟨?_, rfl, rfl, ?_, ?_⟩
  · intro inp hmem
    rcases hgate with hg | ⟨c, hc, ht⟩
    · rw [hg] at hmem
      simp only [List.nil_append, List.mem_cons, List.not_mem_nil, or_false] at hmem
      rcases hmem with h | h <;> cases h
    · rw [hc] at hmem
      simp only [List.cons_append, List.nil_append, List.mem_cons, List.not_mem_nil,
        or_false] at hmem
      rcases hmem with h | h | h <;> cases h
  · intro sch hsch
    rw [NunjucksWorkflowRunner.dryRunOutput, hsch]
    exact ⟨rfl, fun hwf => generateExampleOutput_conforms sch hwf⟩
  · intro hsch
    rw [NunjucksWorkflowRunner.dryRunOutput, hsch]

/-- Witness for C6: the spec's dry-run scenario with output schema
`\x7btype: object, properties: \x7burl: \x7btype: string\x7d\x7d\x7d`. -/
theorem c6_witness :
    (∀ inp, Event.handlerInvoked "d1" inp ∉
      (NunjucksWorkflowRunner.runStep regEx true none stepDry ctxW).events) ∧
    (NunjucksWorkflowRunner.runStep regEx true none stepDry ctxW).error = none ∧
    ((NunjucksWorkflowRunner.runStep regEx true none stepDry ctxW).ctx).steps =
      setKey ctxW.steps "d1" (NunjucksWorkflowRunner.dryRunOutput actDry) ∧
    (∀ sch, actDry.outputSchema = some sch →
      NunjucksWorkflowRunner.dryRunOutput actDry = generateExampleOutput sch ∧
      (schemaWF sch = true → conforms (generateExampleOutput sch) sch = true)) ∧
    (actDry.outputSchema = none → NunjucksWorkflowRunner.dryRunOutput actDry = .obj []) :=
  c6_dry_run_skip regEx none stepDry ctxW actDry (Or.inl rfl) rfl rfl

/-- C9: a step whose conditional renders falsy never consults the action
registry: the skip happens before resolution, emits no lookup event,
raises no error, and the outcome does not depend on the registry at all —
in particular an unregistered action id in a skipped step does not abort
the task. -/
theorem c9_skipped_step_skips_resolution
    (reg reg' : ActionRegistry) (d : Bool) (sec : Option (List (String × String)))
    (s : Step) (ctx : TemplateContext) (c : Json)
    (hc : s.ifCond = some c)
    (hf : isTruthy (NunjucksWorkflowRunner.render c (ctxToJson ctx)) = false) :
    (NunjucksWorkflowRunner.runStep reg d sec s ctx).error = none ∧
    (∀ sid aid, Event.actionLookup sid aid ∉
      (NunjucksWorkflowRunner.runStep reg d sec s ctx).events) ∧
    NunjucksWorkflowRunner.runStep reg d sec s ctx =
      NunjucksWorkflowRunner.runStep reg' d sec s ctx := by
  rw [NunjucksWorkflowRunner.runStep_skip reg d sec s ctx c hc hf,
    NunjucksWorkflowRunner.runStep_skip reg' d sec s ctx c hc hf]
  refine ⟨rfl, ?_, rfl⟩
  intro sid aid hmem
  simp only [List.mem_cons, List.not_mem_nil, or_false] at hmem
  rcases hmem with h | h <;> cases h

/-- Witness for C9: a skipped step with an unregistered action id. -/
theorem c9_witness :
    (NunjucksWorkflowRunner.runStep (fun _ => none) false none stepSkip ctxW).error = none ∧
    (∀ sid aid, Event.actionLookup sid aid ∉
      (NunjucksWorkflowRunner.runStep (fun _ => none) false none stepSkip ctxW).events) ∧
    NunjucksWorkflowRunner.runStep (fun _ => none) false none stepSkip ctxW =
      NunjucksWorkflowRunner.runStep regEx false none stepSkip ctxW :=
  c9_skipped_step_skips_resolution (fun _ => none) regEx false none stepSkip ctxW
    (.bool false) rfl rfl

/-- C10 counterexample: the declared input `""` renders to the absent
value, yet the `&&` on source line 250 short-circuits on it, so the
handler of the concrete run receives the empty string itself, not the
empty object. -/
theorem c10_counterexample :
    NunjucksWorkflowRunner.render (.str "")
        (ctxToJson { ctxW with secrets := some [] }) = none ∧
    (NunjucksWorkflowRunner.runStep regEx false none stepEmptyInput ctxW).events =
      [Event.actionLookup "e1" "act-a",
       Event.handlerInvoked "e1" (.str ""),
       Event.stepSucceeded "e1"] ∧
    Json.str "" ≠ Json.obj [] :=
  ⟨rfl, rfl, fun h => Json.noConfusion h⟩

/-- C10 (amended): an executed step whose declared input is truthy by
JavaScript's coercion and renders to the absent value invokes the handler
with the empty object, exactly as a step that declares no input at all. -/
theorem c10_truthy_absent_input_becomes_empty_object
    (reg : ActionRegistry) (d : Bool) (sec : Option (List (String × String)))
    (s : Step) (ctx : TemplateContext) (a : TemplateAction) (inp : Json)
    (hgate : s.ifCond = none ∨
      ∃ c, s.ifCond = some c ∧
        isTruthy (NunjucksWorkflowRunner.render c (ctxToJson ctx)) = true)
    (hreg : reg s.action = some a) (hdry : (d && !a.supportsDryRun) = false)
    (hsch : a.inputSchema = none) (hinp : s.input = some inp)
    (htr : NunjucksWorkflowRunner.jsTruthy inp = true)
    (hrender : NunjucksWorkflowRunner.render inp
      (ctxToJson { ctx with secrets := some (sec.getD []) }) = none) :
    NunjucksWorkflowRunner.stepInputValue sec s ctx = .obj [] ∧
    Event.handlerInvoked s.id (.obj []) ∈
      (NunjucksWorkflowRunner.runStep reg d sec s ctx).events ∧
    Event.handlerInvoked s.id (.obj []) ∈
      (NunjucksWorkflowRunner.runStep reg d sec { s with input := none } ctx).events := by
  have hval : NunjucksWorkflowRunner.stepInputValue sec s ctx = .obj [] := by
    rw [NunjucksWorkflowRunner.stepInputValue, hinp]
    try simp only []
    rw [if_pos htr, hrender]
    rfl
  have hmem1 : Event.handlerInvoked s.id (.obj []) ∈
      (NunjucksWorkflowRunner.runStep reg d sec s ctx).events := by
    rcases hgate with hg | ⟨c, hc, ht⟩
    · rw [NunjucksWorkflowRunner.runStep_noIf reg d sec ctx hg]
      have h := NunjucksWorkflowRunner.runStepBody_invoke reg d sec ctx ([] : List Event)
        hreg hdry hsch
      rwa [hval] at h
    · rw [NunjucksWorkflowRunner.runStep_ifTrue reg d sec ctx hc ht]
      have h := NunjucksWorkflowRunner.runStepBody_invoke reg d sec ctx
        [Event.rendered (.ifCond s.id) ctx.secrets] hreg hdry hsch
      rwa [hval] at h
  have hval2 : NunjucksWorkflowRunner.stepInputValue sec { s with input := none } ctx =
      .obj [] := rfl
  have hmem2 : Event.handlerInvoked s.id (.obj []) ∈
      (NunjucksWorkflowRunner.runStep reg d sec { s with input := none } ctx).events := by
    rcases hgate with hg | ⟨c, hc, ht⟩
    · rw [NunjucksWorkflowRunner.runStep_noIf reg d sec ctx (show ({ s with input := none } :
        Step).ifCond = none from hg)]
      have h := NunjucksWorkflowRunner.runStepBody_invoke reg d sec ctx ([] : List Event)
        (show reg ({ s with input := none } : Step).action = some a from hreg) hdry hsch
      rwa [hval2] at h
    · rw [NunjucksWorkflowRunner.runStep_ifTrue reg d sec ctx
        (show ({ s with input := none } : Step).ifCond = some c from hc) ht]
      have h := NunjucksWorkflowRunner.runStepBody_invoke reg d sec ctx
        [Event.rendered (.ifCond ({ s with input := none } : Step).id) ctx.secrets]
        (show reg ({ s with input := none } : Step).action = some a from hreg) hdry hsch
      rwa [hval2] at h
  exact ⟨hval, hmem1, hmem2⟩

/-- Witness for C10: a nonempty (hence truthy) input that is wholly one
expression over an absent path renders to `undefined` and the handler
receives the empty object. -/
theorem c10_witness :
    NunjucksWorkflowRunner.stepInputValue none stepInputExpr ctxW = .obj [] ∧
    Event.handlerInvoked "i1" (.obj []) ∈
      (NunjucksWorkflowRunner.runStep regEx false none stepInputExpr ctxW).events ∧
    Event.handlerInvoked "i1" (.obj []) ∈
      (NunjucksWorkflowRunner.runStep regEx false none
        { stepInputExpr with input := none } ctxW).events :=
  c10_truthy_absent_input_becomes_empty_object regEx false none stepInputExpr ctxW actA
    (.str "$\x7b\x7b missing \x7d\x7d") (Or.inl rfl) rfl rfl rfl rfl rfl rfl
